import Mathlib

/-!
Verification of the reolink-videoclips plugin against its design document.

The development shallowly embeds the plugin's TypeScript sources:

* `src/utils.ts` — the bit-packed filename metadata decoder
  (`parseVideoclipName` with its `FLAGS_*` tables) and the calendar-day
  range splitter (`splitDateRangeByDay`);
* `src/client.ts` — the camera client's login guard, the single-day search
  clamp of `getVideoClips`, and `getVideoClipUrl`;
* `src/cameraMixin.ts` — the remote-search normalization loop of
  `getVideoClips`;
* `src/main.ts` — the webhook HTTP handler (`onRequest`): local-file byte
  ranges, the remote proxy, and the status-code dispatch.

Modelling conventions:

* JavaScript strings are `List Char`; JavaScript numbers arising in this
  code are exact integers, embedded as `Option Int` (`none` plays the role
  of `NaN`, which the sources produce via `parseInt` failures).  All
  numbers handled here are far below `2^53`, so IEEE-754 rounding never
  occurs on the modelled paths.
* JavaScript bitwise operators (`<<`, `&`, `>>`) work on 32-bit two's
  complement integers (`ToInt32`); they are embedded with explicit
  `% 2^32` arithmetic.
* `Date` arithmetic (`setHours`, `getDate`, …) uses the host's local
  clock; it is modelled with a fixed UTC offset of zero, i.e. civil days
  are the `86400000`-millisecond blocks of the epoch timeline.  Daylight
  saving shifts are outside the model.
* Thrown-and-caught exceptions are modelled by `Option`/explicit error
  constructors at the position of the corresponding `try`/`catch`.
-/

/-- Embedding of a JavaScript string literal as a list of characters. -/
def jstr (s : String) : List Char := s.toList

/-- JavaScript numbers as they occur in this plugin: exact integers or `NaN`
(`none`). -/
abbrev JSNum := Option Int

/-! ## JavaScript string and number primitives -/

/-- Hexadecimal value of a character, `none` when it is not a hex digit. -/
def hexDigitVal (c : Char) : Option Nat :=
  if '0' ≤ c ∧ c ≤ '9' then some (c.toNat - '0'.toNat)
  else if 'a' ≤ c ∧ c ≤ 'f' then some (c.toNat - 'a'.toNat + 10)
  else if 'A' ≤ c ∧ c ≤ 'F' then some (c.toNat - 'A'.toNat + 10)
  else none

/-- Digit value of a character in a radix up to 16 (JavaScript `parseInt`
accepts exactly the hex digits below the radix). -/
def digitVal (radix : Nat) (c : Char) : Option Nat :=
  match hexDigitVal c with
  | some v => if v < radix then some v else none
  | none => none

/-- Longest prefix of digit values valid in the radix (the part of the string
`parseInt` consumes). -/
def takeDigits (radix : Nat) : List Char → List Nat
  | [] => []
  | c :: cs =>
    match digitVal radix c with
    | some v => v :: takeDigits radix cs
    | none => []

/-- Value of a digit sequence, most significant digit first, accumulated the
way `parseInt` accumulates it. -/
def digitsVal (radix : Nat) (ds : List Nat) : Nat :=
  ds.foldl (fun a d => a * radix + d) 0

/-- Embedding of JavaScript `parseInt(s, radix)`: skip blanks, an optional
sign, for radix 16 an optional `0x`/`0X`, then the maximal digit prefix;
`NaN` when no digit is consumed. -/
def jsParseInt (radix : Nat) (s : List Char) : JSNum :=
  let s1 := s.dropWhile (fun c => c = ' ')
  let neg : Bool := s1.headD ' ' = '-'
  let s2 : List Char := if s1.headD ' ' = '-' ∨ s1.headD ' ' = '+' then s1.tail else s1
  let s3 : List Char :=
    if radix = 16 ∧ (s2.take 2 = jstr "0x" ∨ s2.take 2 = jstr "0X") then s2.drop 2 else s2
  let ds := takeDigits radix s3
  if ds = [] then none
  else some ((if neg then (-1 : Int) else 1) * (digitsVal radix ds : Int))

/-- Decimal digits of a natural number (fuelled; `natToBase b` below). -/
def natToBaseAux (b : Nat) : Nat → Nat → List Char
  | 0, _ => []
  | fuel + 1, n =>
    if n < b then [Nat.digitChar n]
    else natToBaseAux b fuel (n / b) ++ [Nat.digitChar (n % b)]

/-- Digit string of `n` in base `b`, no leading zeros (`"0"` for zero), as
JavaScript `Number.prototype.toString(b)` prints nonnegative integers. -/
def natToBase (b n : Nat) : List Char := natToBaseAux b (n + 1) n

/-- Embedding of JavaScript `toString(2)` on a possibly-`NaN` number. -/
def jsNumToString2 : JSNum → List Char
  | none => jstr "NaN"
  | some i => if i < 0 then '-' :: natToBase 2 i.natAbs else natToBase 2 i.toNat

/-- Embedding of JavaScript `toString()` (decimal) on an integer, as used by
template literals. -/
def intToDecStr (i : Int) : List Char :=
  if i < 0 then '-' :: natToBase 10 i.natAbs else natToBase 10 i.toNat

/-- Embedding of `String.prototype.padStart(n, '0')`. -/
def jsPadStartZero (s : List Char) (n : Nat) : List Char :=
  List.replicate (n - s.length) '0' ++ s

/-- Embedding of `String.prototype.split` with a one-character separator
(every occurrence splits; the result is never empty). -/
def jsSplitChar (sep : Char) : List Char → List (List Char)
  | [] => [[]]
  | c :: cs =>
    let r := jsSplitChar sep cs
    if c = sep then [] :: r
    else (c :: r.headD []) :: r.tail

/-- Embedding of `String.prototype.replace` with a plain-string pattern or a
flagless regex of a literal: only the first occurrence is replaced. -/
def jsReplaceFirst (pat repl : List Char) : List Char → List Char
  | [] => []
  | c :: cs =>
    if pat.isPrefixOf (c :: cs) then repl ++ (c :: cs).drop pat.length
    else c :: jsReplaceFirst pat repl cs

/-- Embedding of `String.prototype.substring(a, b)` (clamping, swapping). -/
def jsSubstring (s : List Char) (a b : Nat) : List Char :=
  (s.take (max a b)).drop (min a b)

/-! ## JavaScript 32-bit integer operations (`ToInt32`/`ToUint32`) -/

/-- Embedding of `ToUint32`: the operand modulo `2^32`, as a natural number. -/
def toUint32 (i : Int) : Nat := (i % (4294967296 : Int)).toNat

/-- Embedding of `ToInt32`: the operand modulo `2^32`, represented in the interval from `-2^31` to `2^31`. -/
def toInt32 (i : Int) : Int :=
  let m := i % (4294967296 : Int)
  if m < 2147483648 then m else m - 4294967296

/-- Conversion `ToInt32` of a possibly-`NaN` number (`NaN` converts to `+0`). -/
def jsToInt32 : JSNum → Int
  | none => 0
  | some i => toInt32 i

/-- Embedding of the JavaScript `&` operator. -/
def jsAnd (a b : JSNum) : Int :=
  toInt32 (((toUint32 (jsToInt32 a) &&& toUint32 (jsToInt32 b) : Nat) : Int))

/-- Embedding of the JavaScript `<<` operator with a constant shift count. -/
def jsShl (a : JSNum) (k : Nat) : Int :=
  toInt32 (jsToInt32 a * ((2 ^ (k % 32) : Nat) : Int))

/-- Embedding of the JavaScript `>>` (sign-propagating right shift). -/
def jsShrA (a : JSNum) (k : Nat) : Int :=
  jsToInt32 a / ((2 ^ (k % 32) : Nat) : Int)

/-- Embedding of a JavaScript `>` comparison whose left side may be
`undefined`/`NaN` (then the comparison is false). -/
def jsGtNum (a : JSNum) (b : Int) : Bool :=
  match a with
  | none => false
  | some i => decide (b < i)

/-! ## Bit reversal

The decoder's central operation: the value of the bit string of `v`
left-padded to `w` bits and then reversed.  The sources implement it through
`toString(2)`/`padStart`/`reverse`/`parseInt`; the bridge between the two
presentations is `jsParseInt_reverse_pad`. -/

/-- Value of the bit string of `v` padded to `w` bits and reversed: bit `i`
of the result is bit `w - 1 - i` of `v`. -/
def reverseBits : Nat → Nat → Nat
  | 0, _ => 0
  | w + 1, v => v % 2 * 2 ^ w + reverseBits w (v / 2)

theorem reverseBits_lt (w v : Nat) : reverseBits w v < 2 ^ w := by
  induction w generalizing v with
  | zero => simp [reverseBits]
  | succ w ih =>
    have h1 : v % 2 ≤ 1 := Nat.le_of_lt_succ (Nat.mod_lt v (by norm_num))
    have h2 := ih (v / 2)
    have : v % 2 * 2 ^ w ≤ 2 ^ w := by
      calc v % 2 * 2 ^ w ≤ 1 * 2 ^ w := Nat.mul_le_mul_right _ h1
      _ = 2 ^ w := by ring
    calc reverseBits (w + 1) v = v % 2 * 2 ^ w + reverseBits w (v / 2) := rfl
    _ < 2 ^ w + 2 ^ w := by omega
    _ = 2 ^ (w + 1) := by ring

theorem testBit_reverseBits (w v j : Nat) (hj : j < w) :
    (reverseBits w v).testBit j = v.testBit (w - 1 - j) := by
  induction w generalizing v j with
  | zero => omega
  | succ w ih =>
    have hsplit : reverseBits (w + 1) v = 2 ^ w * (v % 2) + reverseBits w (v / 2) := by
      rw [reverseBits, Nat.mul_comm]
    rw [hsplit, Nat.testBit_mul_pow_two_add _ (reverseBits_lt w (v / 2)) j]
    rcases Nat.lt_or_ge j w with hjw | hjw
    · rw [if_pos hjw, ih _ _ hjw, Nat.testBit_div_two]
      congr 1
      omega
    · have hjw' : j = w := by omega
      rw [hjw', if_neg (by omega), Nat.sub_self]
      have h0 : (w + 1) - 1 - w = 0 := by omega
      rw [h0]
      have h2 : v % 2 = v % 2 ^ 1 := by norm_num
      rw [h2, Nat.testBit_mod_two_pow]
      simp

theorem reverseBits_testBit_high (w v j : Nat) (hj : w ≤ j) :
    (reverseBits w v).testBit j = false :=
  Nat.testBit_eq_false_of_lt
    (Nat.lt_of_lt_of_le (reverseBits_lt w v) (Nat.pow_le_pow_right (by norm_num) hj))

theorem lt_two_pow_of_testBit_high (x n : Nat)
    (h : ∀ i, n ≤ i → x.testBit i = false) : x < 2 ^ n := by
  have h0 : x / 2 ^ n = 0 := by
    apply Nat.zero_of_testBit_eq_false
    intro i
    rw [← Nat.shiftRight_eq_div_pow, Nat.testBit_shiftRight]
    exact h _ (Nat.le_add_right n i)
  have h1 := Nat.div_add_mod x (2 ^ n)
  have hlt : x % 2 ^ n < 2 ^ n := Nat.mod_lt x (Nat.two_pow_pos n)
  rw [h0, Nat.mul_zero, Nat.zero_add] at h1
  rw [← h1]
  exact hlt

theorem reverseBits_reverseBits (w v : Nat) (hv : v < 2 ^ w) :
    reverseBits w (reverseBits w v) = v := by
  apply Nat.eq_of_testBit_eq
  intro i
  rcases Nat.lt_or_ge i w with hi | hi
  · rw [testBit_reverseBits _ _ _ hi, testBit_reverseBits _ _ _ (by omega)]
    congr 1
    omega
  · rw [reverseBits_testBit_high _ _ _ hi, Nat.testBit_eq_false_of_lt]
    exact Nat.lt_of_lt_of_le hv (Nat.pow_le_pow_right (by norm_num) hi)

theorem reverseBits_mul_pow (l w v : Nat) (hv : v < 2 ^ l) (hlw : l ≤ w) :
    reverseBits l v * 2 ^ (w - l) = reverseBits w v := by
  apply Nat.eq_of_testBit_eq
  intro i
  rw [← Nat.shiftLeft_eq, Nat.testBit_shiftLeft]
  rcases Nat.lt_or_ge i (w - l) with hi | hi
  · have hfalse : (reverseBits w v).testBit i = false := by
      rw [testBit_reverseBits _ _ _ (by omega)]
      exact Nat.testBit_eq_false_of_lt
        (Nat.lt_of_lt_of_le hv (Nat.pow_le_pow_right (by norm_num) (by omega)))
    rw [hfalse, decide_eq_false (by omega)]
    simp
  · rcases Nat.lt_or_ge i w with hiw | hiw
    · rw [decide_eq_true (by omega), Bool.true_and,
        testBit_reverseBits _ _ _ (by omega), testBit_reverseBits _ _ _ hiw]
      congr 1
      omega
    · rw [reverseBits_testBit_high w v i hiw, reverseBits_testBit_high l v _ (by omega)]
      simp

/-! ## Digit strings: printing and parsing lemmas -/

theorem hexDigitVal_digitChar : ∀ d, d < 16 → hexDigitVal (Nat.digitChar d) = some d := by
  decide

theorem digitVal_digitChar (r d : Nat) (hd : d < r) (hr : r ≤ 16) :
    digitVal r (Nat.digitChar d) = some d := by
  simp [digitVal, hexDigitVal_digitChar d (by omega), hd]

theorem digitVal_zero_char (r : Nat) (hr : 1 ≤ r) : digitVal r '0' = some 0 := by
  have h0 : hexDigitVal '0' = some 0 := by decide
  simp [digitVal, h0]
  omega

theorem digitVal_space (r : Nat) : digitVal r ' ' = none := by
  have h0 : hexDigitVal ' ' = none := by decide
  simp [digitVal, h0]

theorem digitVal_dash (r : Nat) : digitVal r '-' = none := by
  have h0 : hexDigitVal '-' = none := by decide
  simp [digitVal, h0]

theorem digitVal_plus (r : Nat) : digitVal r '+' = none := by
  have h0 : hexDigitVal '+' = none := by decide
  simp [digitVal, h0]

theorem digitVal_exchar (r : Nat) : digitVal r 'x' = none ∧ digitVal r 'X' = none := by
  have h0 : hexDigitVal 'x' = none := by decide
  have h1 : hexDigitVal 'X' = none := by decide
  simp [digitVal, h0, h1]

theorem takeDigits_all (r : Nat) (cs : List Char)
    (h : ∀ c ∈ cs, (digitVal r c).isSome) :
    takeDigits r cs = cs.map (fun c => (digitVal r c).getD 0) := by
  induction cs with
  | nil => rfl
  | cons c cs ih =>
    have hc := h c (List.mem_cons_self c cs)
    obtain ⟨v, hv⟩ := Option.isSome_iff_exists.mp hc
    rw [takeDigits, hv, List.map_cons, ih fun d hd => h d (List.mem_cons_of_mem c hd)]
    simp [hv]

/-- Numeric value of an all-digit character string (what `parseInt` returns
on it). -/
def charsVal (r : Nat) (cs : List Char) : Nat :=
  digitsVal r (cs.map fun c => (digitVal r c).getD 0)

theorem digitsVal_from (r a : Nat) (ds : List Nat) :
    ds.foldl (fun x d => x * r + d) a = a * r ^ ds.length + digitsVal r ds := by
  induction ds generalizing a with
  | nil => simp [digitsVal]
  | cons d t ih =>
    have h1 : digitsVal r (d :: t) = d * r ^ t.length + digitsVal r t := by
      rw [digitsVal, List.foldl_cons, ih (0 * r + d)]
      ring_nf
    rw [List.foldl_cons, ih (a * r + d), h1, List.length_cons]
    ring

theorem digitsVal_lt (r : Nat) (hr : 1 ≤ r) (ds : List Nat) (h : ∀ d ∈ ds, d < r) :
    digitsVal r ds < r ^ ds.length := by
  induction ds with
  | nil => simp [digitsVal]
  | cons d t ih =>
    have h1 : digitsVal r (d :: t) = d * r ^ t.length + digitsVal r t := by
      rw [digitsVal, List.foldl_cons, digitsVal_from]
      ring_nf
    have hd : d < r := h d (List.mem_cons_self d t)
    have ht := ih fun x hx => h x (List.mem_cons_of_mem d hx)
    have hd1 : d + 1 ≤ r := hd
    have : d * r ^ t.length + digitsVal r t < (d + 1) * r ^ t.length := by
      have := Nat.mul_le_mul_right (r ^ t.length) hd1
      nlinarith [ht]
    calc digitsVal r (d :: t) = d * r ^ t.length + digitsVal r t := h1
    _ < (d + 1) * r ^ t.length := this
    _ ≤ r * r ^ t.length := Nat.mul_le_mul_right _ hd1
    _ = r ^ (d :: t).length := by rw [List.length_cons]; ring

theorem digitsVal_append_single (r : Nat) (ds : List Nat) (d : Nat) :
    digitsVal r (ds ++ [d]) = digitsVal r ds * r + d := by
  rw [digitsVal, List.foldl_append, List.foldl_cons, List.foldl_nil]
  rfl

theorem digitsVal_append_zeros (r : Nat) (ds : List Nat) (k : Nat) :
    digitsVal r (ds ++ List.replicate k 0) = digitsVal r ds * r ^ k := by
  induction k with
  | zero => simp
  | succ k ih =>
    have h1 : List.replicate (k + 1) (0 : Nat) = List.replicate k 0 ++ [0] := by
      rw [List.replicate_succ' k]
    rw [h1, ← List.append_assoc, digitsVal_append_single, ih]
    ring

theorem digitsVal_zeros_append (r : Nat) (ds : List Nat) (k : Nat) :
    digitsVal r (List.replicate k 0 ++ ds) = digitsVal r ds := by
  have h0 : ∀ k, digitsVal r (List.replicate k (0 : Nat)) = 0 := by
    intro k
    induction k with
    | zero => rfl
    | succ k ih =>
      rw [List.replicate_succ' k, digitsVal_append_single, ih]
      ring
  rw [digitsVal, List.foldl_append]
  have h1 : (List.replicate k (0 : Nat)).foldl (fun x d => x * r + d) 0 = 0 := by
    have := h0 k
    rwa [digitsVal] at this
  rw [h1]
  rfl

theorem digitsVal_reverse_bin (ds : List Nat) (h : ∀ d ∈ ds, d < 2) :
    digitsVal 2 ds.reverse = reverseBits ds.length (digitsVal 2 ds) := by
  induction ds using List.reverseRecOn with
  | nil => rfl
  | append_singleton xs d ih =>
    have hd : d < 2 := h d (by simp)
    have hxs : ∀ x ∈ xs, x < 2 := fun x hx => h x (by simp [hx])
    rw [List.reverse_append, List.reverse_singleton, List.singleton_append]
    have h1 : digitsVal 2 (d :: xs.reverse) = d * 2 ^ xs.length + digitsVal 2 xs.reverse := by
      rw [digitsVal, List.foldl_cons, digitsVal_from]
      simp [List.length_reverse]
    have h2 : digitsVal 2 (xs ++ [d]) = digitsVal 2 xs * 2 + d := digitsVal_append_single 2 xs d
    have hlen : (xs ++ [d]).length = xs.length + 1 := by simp
    rw [h1, ih hxs, h2, hlen, reverseBits]
    have hmod : (digitsVal 2 xs * 2 + d) % 2 = d := by omega
    have hdiv : (digitsVal 2 xs * 2 + d) / 2 = digitsVal 2 xs := by omega
    rw [hmod, hdiv]

theorem natToBaseAux_spec (b : Nat) (hb : 2 ≤ b) (hr : b ≤ 16) :
    ∀ fuel n, n < fuel →
      natToBaseAux b fuel n ≠ [] ∧
      (∀ c ∈ natToBaseAux b fuel n, (digitVal b c).isSome) ∧
      charsVal b (natToBaseAux b fuel n) = n ∧
      n < b ^ (natToBaseAux b fuel n).length ∧
      (∀ w, n < b ^ w → 1 ≤ w → (natToBaseAux b fuel n).length ≤ w) := by
  intro fuel
  induction fuel with
  | zero => omega
  | succ fuel ih =>
    intro n hn
    by_cases hnb : n < b
    · have hds : natToBaseAux b (fuel + 1) n = [Nat.digitChar n] := by
        rw [natToBaseAux, if_pos hnb]
      refine ⟨by simp [hds], ?_, ?_, ?_, ?_⟩
      · intro c hc
        rw [hds, List.mem_singleton] at hc
        rw [hc, digitVal_digitChar b n hnb hr]
        rfl
      · rw [hds, charsVal, List.map_singleton, digitVal_digitChar b n hnb hr]
        simp [digitsVal]
      · rw [hds]
        simpa using hnb
      · intro w hw hw1
        rw [hds]
        simpa using hw1
    · have hds : natToBaseAux b (fuel + 1) n
          = natToBaseAux b fuel (n / b) ++ [Nat.digitChar (n % b)] := by
        rw [natToBaseAux, if_neg hnb]
      have hdivlt : n / b < fuel := by
        have h2 : n / b < n := Nat.div_lt_self (by omega) (by omega)
        omega
      obtain ⟨ihne, ihdig, ihval, ihlt, ihlen⟩ := ih (n / b) hdivlt
      have hmod : n % b < b := Nat.mod_lt n (by omega)
      refine ⟨by simp [hds], ?_, ?_, ?_, ?_⟩
      · intro c hc
        rw [hds, List.mem_append, List.mem_singleton] at hc
        rcases hc with hc | hc
        · exact ihdig c hc
        · rw [hc, digitVal_digitChar b _ hmod hr]
          rfl
      · rw [hds, charsVal, List.map_append, List.map_singleton,
          digitVal_digitChar b _ hmod hr]
        have : (some (n % b)).getD 0 = n % b := rfl
        rw [this, digitsVal_append_single]
        rw [charsVal] at ihval
        rw [ihval, Nat.mul_comm (n / b) b]
        exact Nat.div_add_mod n b
      · rw [hds, List.length_append, List.length_singleton]
        have h1 : n / b + 1 ≤ b ^ (natToBaseAux b fuel (n / b)).length := ihlt
        have h3 : n < (n / b + 1) * b := by
          calc n = b * (n / b) + n % b := (Nat.div_add_mod n b).symm
          _ < b * (n / b) + b := by omega
          _ = (n / b + 1) * b := by ring
        calc n < (n / b + 1) * b := h3
        _ ≤ b ^ (natToBaseAux b fuel (n / b)).length * b := Nat.mul_le_mul_right b h1
        _ = b ^ ((natToBaseAux b fuel (n / b)).length + 1) := by ring
      · intro w hw hw1
        rw [hds, List.length_append, List.length_singleton]
        rcases Nat.lt_or_ge w 2 with hw2 | hw2
        · have hweq : w = 1 := by omega
          rw [hweq] at hw
          simp at hw
          omega
        · have hdb : n / b < b ^ (w - 1) := by
            rw [Nat.div_lt_iff_lt_mul (by omega : 0 < b)]
            have : b ^ (w - 1) * b = b ^ w := by
              have hwx : w - 1 + 1 = w := by omega
              calc b ^ (w - 1) * b = b ^ (w - 1 + 1) := by ring
              _ = b ^ w := by rw [hwx]
            omega
          have := ihlen (w - 1) hdb (by omega)
          omega

theorem natToBase_spec (b n : Nat) (hb : 2 ≤ b) (hr : b ≤ 16) :
    natToBase b n ≠ [] ∧
    (∀ c ∈ natToBase b n, (digitVal b c).isSome) ∧
    charsVal b (natToBase b n) = n ∧
    n < b ^ (natToBase b n).length ∧
    (∀ w, n < b ^ w → 1 ≤ w → (natToBase b n).length ≤ w) :=
  natToBaseAux_spec b hb hr (n + 1) n (Nat.lt_succ_self n)

theorem jsParseInt_all_digits (r : Nat) (cs : List Char) (hne : cs ≠ [])
    (h : ∀ c ∈ cs, (digitVal r c).isSome) :
    jsParseInt r cs = some ((charsVal r cs : Nat) : Int) := by
  obtain ⟨c, cs', rfl⟩ := List.exists_cons_of_ne_nil hne
  have hc : (digitVal r c).isSome := h c (List.mem_cons_self c cs')
  have hspace : ¬c = ' ' := by
    intro hcc
    rw [hcc, digitVal_space] at hc
    simp at hc
  have hdash : ¬c = '-' := by
    intro hcc
    rw [hcc, digitVal_dash] at hc
    simp at hc
  have hplus : ¬c = '+' := by
    intro hcc
    rw [hcc, digitVal_plus] at hc
    simp at hc
  have hdrop : (c :: cs').dropWhile (fun x => x = ' ') = c :: cs' := by
    rw [List.dropWhile_cons_of_neg]
    simp [hspace]
  have hnox : ¬((c :: cs').take 2 = jstr "0x" ∨ (c :: cs').take 2 = jstr "0X") := by
    intro hcase
    rcases hcase with hx | hx
    · have hmem : 'x' ∈ (c :: cs').take 2 := by
        rw [hx]
        decide
      have hmem2 : 'x' ∈ c :: cs' := List.mem_of_mem_take hmem
      have := h 'x' hmem2
      rw [(digitVal_exchar r).1] at this
      simp at this
    · have hmem : 'X' ∈ (c :: cs').take 2 := by
        rw [hx]
        decide
      have hmem2 : 'X' ∈ c :: cs' := List.mem_of_mem_take hmem
      have := h 'X' hmem2
      rw [(digitVal_exchar r).2] at this
      simp at this
  have htd : takeDigits r (c :: cs') = (c :: cs').map (fun x => (digitVal r x).getD 0) :=
    takeDigits_all r _ h
  have hcond : ¬(r = 16 ∧ ((c :: cs').take 2 = jstr "0x" ∨ (c :: cs').take 2 = jstr "0X")) := by
    intro hcase
    exact hnox hcase.2
  rw [jsParseInt]
  simp only [hdrop, List.headD_cons]
  rw [if_neg (show ¬(c = '-' ∨ c = '+') by simp [hdash, hplus])]
  rw [if_neg hcond, htd]
  simp [hdash, charsVal]

theorem jsParseInt_reverse_pad (v w : Nat) (hv : v < 2 ^ w) (hw : 1 ≤ w) :
    jsParseInt 2 ((jsPadStartZero (natToBase 2 v) w).reverse) = some ((reverseBits w v : Nat) : Int) := by
  obtain ⟨hne, hdig, hval, hlt, hlen⟩ := natToBase_spec 2 v (by norm_num) (by norm_num)
  have hlenw : (natToBase 2 v).length ≤ w := hlen w hv hw
  have hrev : (jsPadStartZero (natToBase 2 v) w).reverse
      = (natToBase 2 v).reverse ++ List.replicate (w - (natToBase 2 v).length) '0' := by
    rw [jsPadStartZero, List.reverse_append, List.reverse_replicate]
  have hdigall : ∀ c ∈ (jsPadStartZero (natToBase 2 v) w).reverse, (digitVal 2 c).isSome := by
    intro c hcmem
    rw [hrev, List.mem_append] at hcmem
    rcases hcmem with hcm | hcm
    · exact hdig c (List.mem_reverse.mp hcm)
    · rw [List.eq_of_mem_replicate hcm, digitVal_zero_char 2 (by norm_num)]
      rfl
  have hnonempty : (jsPadStartZero (natToBase 2 v) w).reverse ≠ [] := by
    rw [hrev]
    intro hemp
    rcases List.append_eq_nil.mp hemp with ⟨h1, _⟩
    exact hne (by simpa using h1)
  rw [jsParseInt_all_digits 2 _ hnonempty hdigall]
  congr 2
  rw [charsVal, hrev, List.map_append]
  have hzeros : (List.replicate (w - (natToBase 2 v).length) '0').map
      (fun c => (digitVal 2 c).getD 0) = List.replicate (w - (natToBase 2 v).length) 0 := by
    rw [List.map_replicate, digitVal_zero_char 2 (by norm_num)]
    rfl
  rw [hzeros, digitsVal_append_zeros]
  have hmaprev : ((natToBase 2 v).reverse.map fun c => (digitVal 2 c).getD 0)
      = ((natToBase 2 v).map fun c => (digitVal 2 c).getD 0).reverse := by
    rw [List.map_reverse]
  rw [hmaprev]
  have hbin : ∀ d ∈ (natToBase 2 v).map fun c => (digitVal 2 c).getD 0, d < 2 := by
    intro d hd
    rw [List.mem_map] at hd
    obtain ⟨c, hcmem, rfl⟩ := hd
    have := hdig c hcmem
    obtain ⟨x, hx⟩ := Option.isSome_iff_exists.mp this
    have hxlt : x < 2 := by
      rw [digitVal] at hx
      rcases hhx : hexDigitVal c with _ | y
      · rw [hhx] at hx
        simp at hx
      · rw [hhx] at hx
        by_cases hy2 : y < 2
        · simp [hy2] at hx
          omega
        · simp [hy2] at hx
    simp [hx, hxlt]
  rw [digitsVal_reverse_bin _ hbin]
  have hlenmap : ((natToBase 2 v).map fun c => (digitVal 2 c).getD 0).length
      = (natToBase 2 v).length := List.length_map _ _
  rw [hlenmap]
  rw [charsVal] at hval
  rw [hval]
  exact reverseBits_mul_pow _ _ _ (by rw [← hval] at hlt ⊢; exact hlt) hlenw

/-- Hex digit string of `n` left-padded with zeros to `len` digits. -/
def natToHexPad (n len : Nat) : List Char := jsPadStartZero (natToBase 16 n) len

theorem natToHexPad_length (n len : Nat) (h : n < 16 ^ len) (hl : 1 ≤ len) :
    (natToHexPad n len).length = len := by
  obtain ⟨hne, hdig, hval, hlt, hlen⟩ := natToBase_spec 16 n (by norm_num) (by norm_num)
  have := hlen len h hl
  rw [natToHexPad, jsPadStartZero, List.length_append, List.length_replicate]
  omega

theorem jsParseInt_natToHexPad (n len : Nat) (h : n < 16 ^ len) :
    jsParseInt 16 (natToHexPad n len) = some ((n : Nat) : Int) := by
  obtain ⟨hne, hdig, hval, hlt, hlen⟩ := natToBase_spec 16 n (by norm_num) (by norm_num)
  have hdigall : ∀ c ∈ natToHexPad n len, (digitVal 16 c).isSome := by
    intro c hcmem
    rw [natToHexPad, jsPadStartZero, List.mem_append] at hcmem
    rcases hcmem with hcm | hcm
    · rw [List.eq_of_mem_replicate hcm, digitVal_zero_char 16 (by norm_num)]
      rfl
    · exact hdig c hcm
  have hnonempty : natToHexPad n len ≠ [] := by
    rw [natToHexPad, jsPadStartZero]
    intro hemp
    rcases List.append_eq_nil.mp hemp with ⟨_, h2⟩
    exact hne h2
  rw [jsParseInt_all_digits 16 _ hnonempty hdigall]
  congr 2
  rw [natToHexPad, jsPadStartZero, charsVal, List.map_append, List.map_replicate,
    digitVal_zero_char 16 (by norm_num)]
  have : (some (0 : Nat)).getD 0 = 0 := rfl
  rw [this, digitsVal_zeros_append]
  rw [charsVal] at hval
  exact hval

/-! ## Arithmetic facts about the 32-bit embedding -/

theorem toInt32_of_small (i : Int) (h0 : 0 ≤ i) (h1 : i < 2147483648) : toInt32 i = i := by
  rw [toInt32]
  have hmod : i % 4294967296 = i := Int.emod_eq_of_lt h0 (by omega)
  simp only [hmod]
  rw [if_pos h1]

theorem toUint32_toInt32 (i : Int) : toUint32 (toInt32 i) = (i % 4294967296).toNat := by
  rw [toInt32, toUint32]
  by_cases h : i % 4294967296 < 2147483648
  · simp only [h, if_true]
    omega
  · simp only [h, if_false]
    omega

theorem toUint32_toInt32_ofNat (R : Nat) : toUint32 (toInt32 (R : Int)) = R % 4294967296 := by
  rw [toUint32_toInt32]
  omega

theorem jsShl_small (v k : Nat) (hk : k ≤ 31) (hsmall : v * 2 ^ k < 2147483648) :
    jsShl (some (v : Int)) k = ((v * 2 ^ k : Nat) : Int) := by
  have hv : (v : Int) < 2147483648 := by
    have h1 : v ≤ v * 2 ^ k := Nat.le_mul_of_pos_right v (Nat.two_pow_pos k)
    have : v < 2147483648 := by omega
    exact_mod_cast this
  have hkmod : k % 32 = k := Nat.mod_eq_of_lt (by omega)
  rw [jsShl, jsToInt32, toInt32_of_small _ (by positivity) hv, hkmod]
  rw [toInt32_of_small]
  · push_cast
    ring
  · positivity
  · push_cast
    exact_mod_cast hsmall

theorem jsAnd_ofNat (R m : Nat) (hm : m < 2147483648) :
    jsAnd (some (R : Int)) (some (m : Int)) = (((R % 4294967296 &&& m : Nat)) : Int) := by
  rw [jsAnd, jsToInt32, jsToInt32, toUint32_toInt32_ofNat, toUint32_toInt32_ofNat]
  have hmm : m % 4294967296 = m := Nat.mod_eq_of_lt (by omega)
  rw [hmm]
  have hland : R % 4294967296 &&& m ≤ m := Nat.and_le_right
  have hsm : (((R % 4294967296 &&& m : Nat)) : Int) < 2147483648 := by
    have hlt : R % 4294967296 &&& m < 2147483648 := by omega
    exact_mod_cast hlt
  rw [toInt32_of_small _ (by positivity) hsm]

theorem jsShrA_ofNat (x k : Nat) (hk : k ≤ 31) (hx : x < 2147483648) :
    jsShrA (some (x : Int)) k = ((x / 2 ^ k : Nat) : Int) := by
  have hkmod : k % 32 = k := Nat.mod_eq_of_lt (by omega)
  rw [jsShrA, jsToInt32, toInt32_of_small _ (Int.ofNat_nonneg _) (by exact_mod_cast hx), hkmod]
  exact (Int.ofNat_ediv x (2 ^ k)).symm

theorem land_mask_div (R pos size : Nat) (h : pos + size ≤ 32) :
    (R % 4294967296 &&& (2 ^ size - 1) * 2 ^ pos) / 2 ^ pos
      = R / 2 ^ pos % 2 ^ size := by
  have h32 : (4294967296 : Nat) = 2 ^ 32 := by norm_num
  apply Nat.eq_of_testBit_eq
  intro i
  rw [← Nat.shiftRight_eq_div_pow, ← Nat.shiftRight_eq_div_pow]
  rw [Nat.testBit_shiftRight]
  rw [Nat.testBit_mod_two_pow]
  rw [Nat.testBit_shiftRight]
  rw [Nat.testBit_land]
  rw [h32, Nat.testBit_mod_two_pow]
  rw [← Nat.shiftLeft_eq, Nat.testBit_shiftLeft, Nat.testBit_two_pow_sub_one]
  by_cases hi : i < size
  · have h1 : decide (pos + i < 32) = true := by simp only [decide_eq_true_eq]; omega
    have h2 : decide (pos + i ≥ pos) = true := by simp only [decide_eq_true_eq]; omega
    have h3 : decide (pos + i - pos < size) = true := by simp only [decide_eq_true_eq]; omega
    have h4 : decide (i < size) = true := by simp only [decide_eq_true_eq]; omega
    rw [h1, h2, h3, h4]
    simp
  · have h3 : decide (pos + i - pos < size) = false := by
      simp only [decide_eq_false_iff_not]
      omega
    have h4 : decide (i < size) = false := by
      simp only [decide_eq_false_iff_not]
      omega
    rw [h3, h4]
    simp

/-! ## The filename metadata decoder (`src/utils.ts`, `parseVideoclipName`)

Flag tables are `(name, bitPosition, bitSize)` triples in the object-literal
order of the sources. -/

/-- Table `FLAGS_CAM_V2` of `src/utils.ts`. -/
def FLAGS_CAM_V2 : List (List Char × Nat × Nat) :=
  [(jstr "resolution_index", 0, 7), (jstr "tv_system", 7, 1),
   (jstr "framerate", 8, 7), (jstr "audio_index", 15, 2),
   (jstr "ai_pd", 17, 1), (jstr "ai_fd", 18, 1), (jstr "ai_vd", 19, 1),
   (jstr "ai_ad", 20, 1), (jstr "encoder_type_index", 21, 2),
   (jstr "is_schedule_record", 23, 1), (jstr "is_motion_record", 24, 1),
   (jstr "is_rf_record", 25, 1), (jstr "is_doorbell_record", 26, 1),
   (jstr "ai_other", 27, 1)]

/-- Table `FLAGS_HUB_V0` of `src/utils.ts`. -/
def FLAGS_HUB_V0 : List (List Char × Nat × Nat) :=
  [(jstr "resolution_index", 0, 7), (jstr "tv_system", 7, 1),
   (jstr "framerate", 8, 7), (jstr "audio_index", 15, 2),
   (jstr "ai_pd", 17, 1), (jstr "ai_fd", 18, 1), (jstr "ai_vd", 19, 1),
   (jstr "ai_ad", 20, 1), (jstr "encoder_type_index", 21, 2),
   (jstr "is_schedule_record", 23, 1), (jstr "is_motion_record", 24, 1),
   (jstr "is_rf_record", 25, 1), (jstr "is_doorbell_record", 26, 1),
   (jstr "is_ai_other_record", 27, 1), (jstr "picture_layout_index", 28, 7),
   (jstr "package_delivered", 35, 1), (jstr "package_takenaway", 36, 1)]

/-- Table `FLAGS_HUB_V1` of `src/utils.ts` (spread of `FLAGS_HUB_V0` plus
`package_event`). -/
def FLAGS_HUB_V1 : List (List Char × Nat × Nat) :=
  FLAGS_HUB_V0 ++ [(jstr "package_event", 37, 1)]

/-- Table for hub version 2 of `src/utils.ts` (the inline object literal). -/
def FLAGS_HUB_V2 : List (List Char × Nat × Nat) :=
  [(jstr "resolution_index", 0, 7), (jstr "tv_system", 7, 1),
   (jstr "framerate", 8, 7), (jstr "audio_index", 15, 2),
   (jstr "ai_pd", 17, 1), (jstr "ai_fd", 18, 1), (jstr "ai_vd", 19, 1),
   (jstr "ai_ad", 20, 1), (jstr "ai_other", 21, 2),
   (jstr "encoder_type_index", 23, 1), (jstr "is_schedule_record", 24, 1),
   (jstr "is_motion_record", 25, 1), (jstr "is_rf_record", 26, 1),
   (jstr "is_doorbell_record", 27, 1), (jstr "picture_layout_index", 28, 7),
   (jstr "package_delivered", 35, 1), (jstr "package_takenaway", 36, 1),
   (jstr "package_event", 37, 1), (jstr "upload_flag", 38, 1)]

/-- The `FLAGS_MAPPING[devType][version]` lookup: an absent entry models the
`Object.entries(undefined)` crash caught by the enclosing `try`. -/
def flagsMappingLookup (devType : List Char) (version : JSNum) :
    Option (List (List Char × Nat × Nat)) :=
  if devType = jstr "cam" then
    if version = some 2 ∨ version = some 3 ∨ version = some 4 ∨ version = some 9 then
      some FLAGS_CAM_V2
    else none
  else if devType = jstr "hub" then
    if version = some 0 then some FLAGS_HUB_V0
    else if version = some 1 then some FLAGS_HUB_V1
    else if version = some 2 then some FLAGS_HUB_V2
    else none
  else none

/-- Lines 221-232 of `src/utils.ts`: `hexInt = parseInt(hexValue, 16)` and its
bit-reversed reinterpretation
`parseInt(hexInt.toString(2).padStart(hexValue.length * 4, '0').split('').reverse().join(''), 2)`. -/
def reversedHexInt (hexValue : List Char) : JSNum :=
  let hexInt := jsParseInt 16 hexValue
  jsParseInt 2 ((jsPadStartZero (jsNumToString2 hexInt) (hexValue.length * 4)).reverse)

/-- Lines 238-256 of `src/utils.ts`: one iteration of the flag loop.  The mask
is `((1 << bitSize) - 1) << bitPosition` in 32-bit arithmetic, the extracted
value is `(hexIntReversed & mask) >> bitPosition`, and the final value
re-parses the bit-reversed, `bitSize`-padded binary string. -/
def decodeFlagValue (hexIntReversed : JSNum) (bitPosition bitSize : Nat) : JSNum :=
  let mask : Int := jsShl (some (jsShl (some 1) bitSize - 1)) bitPosition
  let flagValueReversed : Int := jsShrA (some (jsAnd hexIntReversed (some mask))) bitPosition
  jsParseInt 2 ((jsPadStartZero (jsNumToString2 (some flagValueReversed)) bitSize).reverse)

/-- The flag loop of `parseVideoclipName`: every table entry decoded against
the same reversed integer, in table order. -/
def decodeFlags (hexValue : List Char) (table : List (List Char × Nat × Nat)) :
    List (List Char × JSNum) :=
  table.map fun e => (e.1, decodeFlagValue (reversedHexInt hexValue) e.2.1 e.2.2)

/-- Property access `flagValues[name]` on the decoded-flag object
(`none` models `undefined` for an absent key). -/
def lookupFlag (flagValues : List (List Char × JSNum)) (name : List Char) : Option JSNum :=
  (flagValues.find? fun p => p.1 = name).map (fun p => p.2)

/-- Lines 261-277 of `src/utils.ts`: the detection classes pushed from the
decoded flags, in source order; `=== 1` is false on `undefined` and `NaN`. -/
def detectionClassesOf (flagValues : List (List Char × JSNum)) : List (List Char) :=
  (if lookupFlag flagValues (jstr "ai_pd") = some (some 1) then [jstr "person"] else []) ++
  (if lookupFlag flagValues (jstr "ai_vd") = some (some 1) then [jstr "vehicle"] else []) ++
  (if lookupFlag flagValues (jstr "ai_fd") = some (some 1) then [jstr "face"] else []) ++
  (if lookupFlag flagValues (jstr "ai_ad") = some (some 1) then [jstr "animal"] else []) ++
  (if lookupFlag flagValues (jstr "is_motion_record") = some (some 1)
      ∨ lookupFlag flagValues (jstr "ai_other") = some (some 1)
   then [jstr "motion"] else [])

/-- Embedding of `Number("0x" + sizeHex)`: a full-string hex literal parse,
`NaN` unless every character is a hex digit (and at least one is present). -/
def jsNumberOfHexStr (s : List Char) : JSNum :=
  if s ≠ [] ∧ s.all (fun c => (hexDigitVal c).isSome) then
    some ((charsVal 16 s : Nat) : Int)
  else none

/-- Result record of `parseVideoclipName` (the fields the plugin consumes). -/
structure ParsedClip where
  size : JSNum
  detectionClasses : List (List Char)
deriving DecidableEq

/-- Lines 201-290 of `src/utils.ts`, `parseVideoclipName`.  `none` is the
`catch` path, reached when `parts.length` is neither 6 nor 9 (the
`hexValue.length` access throws on `undefined`) or when `(devType, version)`
has no flag table (`Object.entries(undefined)` throws). -/
def parseVideoclipName (videoclipPath : List Char) : Option ParsedClip :=
  let filenameWithExtension := (jsSplitChar '/' videoclipPath).getLastD []
  let filename := (jsSplitChar '.' filenameWithExtension).headD []
  let parts := jsSplitChar '_' filename
  let version := jsParseInt 16 (jsSubstring (parts.headD []) 4 6)
  let info : Option (List Char × List Char × List Char) :=
    if parts.length = 6 then some (jstr "cam", parts.getD 4 [], parts.getD 5 [])
    else if parts.length = 9 then some (jstr "hub", parts.getD 7 [], parts.getD 8 [])
    else none
  match info with
  | none => none
  | some (devType, hexValue, sizeHex) =>
    match flagsMappingLookup devType version with
    | none => none
    | some table =>
      some { size := jsNumberOfHexStr sizeHex,
             detectionClasses := detectionClassesOf (decodeFlags hexValue table) }

/-! ## The decode rule of the design document, and the round-trip encoder -/

/-- Modelled from the spec (§4.1): the double-bit-reversal decode rule —
parse the flags word, bit-reverse it padded to `totalBits`, extract the
`(pos, size)` window, and bit-reverse the window padded to `size` bits. -/
def specFlagValue (hexVal totalBits pos size : Nat) : Nat :=
  reverseBits size (reverseBits totalBits hexVal / 2 ^ pos % 2 ^ size)

/-- Modelled from the spec (§8 round-trip): pack one flag assignment into the
addressable (reversed) bit space. -/
def packFlags (asn : List ((List Char × Nat × Nat) × Nat)) : Nat :=
  asn.foldr (fun p acc => (reverseBits p.1.2.2 p.2 <<< p.1.2.1) ||| acc) 0

/-- Modelled from the spec (§8 round-trip): the packed word, bit-reversed
into natural order and printed as a `len`-digit hex flags field. -/
def encodeFlags (len : Nat) (asn : List ((List Char × Nat × Nat) × Nat)) : List Char :=
  natToHexPad (reverseBits (len * 4) (packFlags asn)) len

/-- Disjointness of the bit windows of two flag entries. -/
def FlagDisjoint (p q : (List Char × Nat × Nat) × Nat) : Prop :=
  p.1.2.1 + p.1.2.2 ≤ q.1.2.1 ∨ q.1.2.1 + q.1.2.2 ≤ p.1.2.1

instance (p q : (List Char × Nat × Nat) × Nat) : Decidable (FlagDisjoint p q) := by
  unfold FlagDisjoint
  infer_instance

theorem testBit_packFlags (asn : List ((List Char × Nat × Nat) × Nat)) (i : Nat) :
    (packFlags asn).testBit i
      = asn.any fun p =>
          decide (i ≥ p.1.2.1) && (reverseBits p.1.2.2 p.2).testBit (i - p.1.2.1) := by
  induction asn with
  | nil => simp [packFlags]
  | cons p rest ih =>
    rw [packFlags, List.foldr_cons, Nat.testBit_lor, Nat.testBit_shiftLeft]
    rw [packFlags] at ih
    rw [ih, List.any_cons]

theorem packFlags_lt (asn : List ((List Char × Nat × Nat) × Nat)) (L : Nat)
    (h : ∀ p ∈ asn, p.1.2.1 + p.1.2.2 ≤ L) : packFlags asn < 2 ^ L := by
  apply lt_two_pow_of_testBit_high
  intro i hi
  rw [testBit_packFlags, List.any_eq_false]
  intro p hp
  have hfit := h p hp
  have hhigh : (reverseBits p.1.2.2 p.2).testBit (i - p.1.2.1) = false :=
    reverseBits_testBit_high _ _ _ (by omega)
  simp [hhigh]

theorem packFlags_window (asn : List ((List Char × Nat × Nat) × Nat))
    (g : (List Char × Nat × Nat) × Nat) (hg : g ∈ asn)
    (hpw : asn.Pairwise FlagDisjoint) (j : Nat) (hj : j < g.1.2.2) :
    (packFlags asn).testBit (g.1.2.1 + j) = (reverseBits g.1.2.2 g.2).testBit j := by
  induction asn with
  | nil => simp at hg
  | cons p rest ih =>
    rw [List.pairwise_cons] at hpw
    obtain ⟨hheadq, hpwrest⟩ := hpw
    have hterm : ∀ q : (List Char × Nat × Nat) × Nat, FlagDisjoint g q →
        (decide (g.1.2.1 + j ≥ q.1.2.1)
          && (reverseBits q.1.2.2 q.2).testBit (g.1.2.1 + j - q.1.2.1)) = false := by
      intro q hdj
      rcases hdj with hca | hca
      · rw [decide_eq_false (by omega)]
        simp
      · have hhigh : (reverseBits q.1.2.2 q.2).testBit (g.1.2.1 + j - q.1.2.1) = false :=
          reverseBits_testBit_high _ _ _ (by omega)
        simp [hhigh]
    rw [packFlags, List.foldr_cons, Nat.testBit_lor, Nat.testBit_shiftLeft]
    rcases List.mem_cons.mp hg with hgp | hgrest
    · have hrest : (packFlags rest).testBit (g.1.2.1 + j) = false := by
        rw [testBit_packFlags, List.any_eq_false]
        intro q hq
        have hdj : FlagDisjoint g q := by
          rw [hgp]
          exact hheadq q hq
        simp [hterm q hdj]
      rw [packFlags] at hrest
      rw [hrest, Bool.or_false, ← hgp]
      rw [decide_eq_true (by omega : g.1.2.1 + j ≥ g.1.2.1), Bool.true_and]
      congr 1
      omega
    · have hpterm : (decide (g.1.2.1 + j ≥ p.1.2.1)
          && (reverseBits p.1.2.2 p.2).testBit (g.1.2.1 + j - p.1.2.1)) = false := by
        have hdj : FlagDisjoint p g := hheadq g hgrest
        apply hterm
        rw [FlagDisjoint] at hdj ⊢
        omega
      rw [hpterm, Bool.false_or]
      have hih := ih hgrest hpwrest
      rw [packFlags] at hih
      exact hih

theorem packFlags_extract (asn : List ((List Char × Nat × Nat) × Nat))
    (g : (List Char × Nat × Nat) × Nat) (hg : g ∈ asn)
    (hpw : asn.Pairwise FlagDisjoint) :
    packFlags asn / 2 ^ g.1.2.1 % 2 ^ g.1.2.2 = reverseBits g.1.2.2 g.2 := by
  apply Nat.eq_of_testBit_eq
  intro j
  rw [Nat.testBit_mod_two_pow, ← Nat.shiftRight_eq_div_pow, Nat.testBit_shiftRight]
  rcases Nat.lt_or_ge j g.1.2.2 with hj | hj
  · rw [decide_eq_true hj, Bool.true_and]
    exact packFlags_window asn g hg hpw j hj
  · rw [decide_eq_false (by omega), Bool.false_and,
      reverseBits_testBit_high _ _ _ hj]

theorem jsNumToString2_ofNat (E : Nat) : jsNumToString2 (some (E : Int)) = natToBase 2 E := by
  rw [jsNumToString2]
  rw [if_neg (not_lt.mpr (Int.ofNat_nonneg E)), Int.toNat_ofNat]

theorem decodeFlagValue_eq (R pos size : Nat) (hps : pos + size ≤ 31)
    (hs1 : 1 ≤ size) (hs30 : size ≤ 30) :
    decodeFlagValue (some (R : Int)) pos size
      = some ((reverseBits size (R / 2 ^ pos % 2 ^ size) : Nat) : Int) := by
  have hone : jsShl (some 1) size = ((2 ^ size : Nat) : Int) := by
    have h1 : ((1 : Nat) : Int) = (1 : Int) := rfl
    rw [← h1, jsShl_small 1 size (by omega) (by
      have : (2 : Nat) ^ size ≤ 2 ^ 30 := Nat.pow_le_pow_right (by norm_num) hs30
      omega)]
    norm_num
  have hmasklt : (2 ^ size - 1) * 2 ^ pos < 2147483648 := by
    have h1 : (2 ^ size - 1) * 2 ^ pos < 2 ^ size * 2 ^ pos := by
      have hz1 := Nat.two_pow_pos size
      have hz2 := Nat.two_pow_pos pos
      exact (Nat.mul_lt_mul_right hz2).mpr (by omega)
    have h2 : (2 : Nat) ^ size * 2 ^ pos = 2 ^ (size + pos) := (pow_add 2 size pos).symm
    have h3 : (2 : Nat) ^ (size + pos) ≤ 2 ^ 31 := Nat.pow_le_pow_right (by norm_num) (by omega)
    have h4 : (2 : Nat) ^ 31 = 2147483648 := by norm_num
    omega
  have hmask : jsShl (some (jsShl (some 1) size - 1)) pos
      = (((2 ^ size - 1) * 2 ^ pos : Nat) : Int) := by
    rw [hone]
    have hcast : ((2 ^ size : Nat) : Int) - 1 = (((2 ^ size - 1 : Nat)) : Int) := by
      have := Nat.two_pow_pos size
      push_cast [this]
      ring
    rw [hcast, jsShl_small _ pos (by omega) hmasklt]
  rw [decodeFlagValue, hmask, jsAnd_ofNat _ _ (by exact_mod_cast hmasklt)]
  have hxlt : R % 4294967296 &&& (2 ^ size - 1) * 2 ^ pos < 2147483648 :=
    Nat.lt_of_le_of_lt Nat.and_le_right hmasklt
  rw [jsShrA_ofNat _ pos (by omega) hxlt]
  rw [land_mask_div R pos size (by omega)]
  have hElt : R / 2 ^ pos % 2 ^ size < 2 ^ size := Nat.mod_lt _ (Nat.two_pow_pos size)
  rw [jsNumToString2_ofNat]
  exact jsParseInt_reverse_pad _ size hElt hs1

theorem reversedHexInt_eq (hexValue : List Char) (W : Nat)
    (hparse : jsParseInt 16 hexValue = some ((W : Nat) : Int))
    (hW : W < 2 ^ (hexValue.length * 4)) (hlen : 1 ≤ hexValue.length) :
    reversedHexInt hexValue = some ((reverseBits (hexValue.length * 4) W : Nat) : Int) := by
  rw [reversedHexInt, hparse, jsNumToString2_ofNat]
  exact jsParseInt_reverse_pad W _ hW (by omega)

set_option maxRecDepth 4000 in
theorem lookupFlag_decodeFlags (hexValue : List Char)
    (asn : List ((List Char × Nat × Nat) × Nat))
    (p : (List Char × Nat × Nat) × Nat) (hp : p ∈ asn)
    (hnd : (asn.map fun q => q.1.1).Nodup) :
    lookupFlag (decodeFlags hexValue (asn.map fun q => q.1)) p.1.1
      = some (decodeFlagValue (reversedHexInt hexValue) p.1.2.1 p.1.2.2) := by
  induction asn with
  | nil => simp at hp
  | cons q rest ih =>
    rw [List.map_cons, List.nodup_cons] at hnd
    obtain ⟨hqnot, hndrest⟩ := hnd
    rw [List.map_cons, decodeFlags, List.map_cons, lookupFlag]
    rcases List.mem_cons.mp hp with hpq | hprest
    · subst hpq
      rw [List.find?_cons_of_pos _ (by simp)]
      simp
    · have hne : ¬(q.1.1 = p.1.1) := by
        intro heq
        apply hqnot
        rw [heq]
        exact List.mem_map_of_mem (fun r => r.1.1) hprest
      rw [List.find?_cons_of_neg _ (by simpa using hne)]
      have hih := ih hprest hndrest
      rw [lookupFlag, decodeFlags] at hih
      exact hih

/-- Structural facts holding of every supported flag table: distinct names,
pairwise-disjoint bit windows, sizes between 1 and 30 bits, and windows
fitting the `len`-digit flags word. -/
def TableAssumptions (table : List (List Char × Nat × Nat)) (len : Nat) : Prop :=
  (table.map fun e => e.1).Nodup ∧
  table.Pairwise (fun p q => p.2.1 + p.2.2 ≤ q.2.1 ∨ q.2.1 + q.2.2 ≤ p.2.1) ∧
  ∀ e ∈ table, 1 ≤ e.2.2 ∧ e.2.2 ≤ 30 ∧ e.2.1 + e.2.2 ≤ len * 4

instance (table : List (List Char × Nat × Nat)) (len : Nat) :
    Decidable (TableAssumptions table len) := by
  unfold TableAssumptions
  infer_instance

set_option maxRecDepth 4000 in
theorem decode_encodeFlags (len : Nat) (hlen1 : 1 ≤ len)
    (asn : List ((List Char × Nat × Nat) × Nat))
    (hta : TableAssumptions (asn.map fun q => q.1) len)
    (hv : ∀ p ∈ asn, p.2 < 2 ^ p.1.2.2) :
    ∀ p ∈ asn, p.1.2.1 + p.1.2.2 ≤ 31 →
      lookupFlag (decodeFlags (encodeFlags len asn) (asn.map fun q => q.1)) p.1.1
        = some (some ((p.2 : Nat) : Int)) := by
  obtain ⟨hnd, hpwtab, hfit⟩ := hta
  have hndnames : (asn.map fun q => q.1.1).Nodup := by
    have h0 : ((asn.map fun q => q.1).map fun e => e.1).Nodup := hnd
    rw [List.map_map] at h0
    exact h0
  have hpw : asn.Pairwise FlagDisjoint := by
    rw [List.pairwise_map] at hpwtab
    exact hpwtab
  have hfit' : ∀ p ∈ asn, p.1.2.1 + p.1.2.2 ≤ len * 4 := by
    intro p hp
    exact (hfit p.1 (List.mem_map_of_mem _ hp)).2.2
  have hsz : ∀ p ∈ asn, 1 ≤ p.1.2.2 ∧ p.1.2.2 ≤ 30 := by
    intro p hp
    exact ⟨(hfit p.1 (List.mem_map_of_mem _ hp)).1, (hfit p.1 (List.mem_map_of_mem _ hp)).2.1⟩
  have hpacked : packFlags asn < 2 ^ (len * 4) := packFlags_lt asn _ hfit'
  have hW : reverseBits (len * 4) (packFlags asn) < 2 ^ (len * 4) := reverseBits_lt _ _
  have h16 : (16 : Nat) ^ len = 2 ^ (len * 4) := by
    rw [show (16 : Nat) = 2 ^ 4 from by norm_num, ← pow_mul, Nat.mul_comm]
  have hW16 : reverseBits (len * 4) (packFlags asn) < 16 ^ len := by
    rw [h16]
    exact hW
  have hlenE : (encodeFlags len asn).length = len := by
    rw [encodeFlags]
    exact natToHexPad_length _ len hW16 hlen1
  have hparse : jsParseInt 16 (encodeFlags len asn)
      = some ((reverseBits (len * 4) (packFlags asn) : Nat) : Int) := by
    rw [encodeFlags]
    exact jsParseInt_natToHexPad _ len hW16
  have hrev : reversedHexInt (encodeFlags len asn) = some ((packFlags asn : Nat) : Int) := by
    have h1 := reversedHexInt_eq (encodeFlags len asn) _ hparse (by rw [hlenE]; exact hW)
      (by rw [hlenE]; omega)
    rw [h1, hlenE, reverseBits_reverseBits _ _ hpacked]
  intro p hp hps31
  have hs1 := (hsz p hp).1
  have hs30 := (hsz p hp).2
  rw [lookupFlag_decodeFlags (encodeFlags len asn) asn p hp hndnames, hrev]
  rw [decodeFlagValue_eq (packFlags asn) p.1.2.1 p.1.2.2 hps31 hs1 hs30]
  rw [packFlags_extract asn p hp hpw]
  rw [reverseBits_reverseBits _ _ (hv p hp)]

/-! ## The calendar-day range splitter (`src/utils.ts`, `splitDateRangeByDay`)

The model fixes the local clock at UTC offset zero: the civil day containing
instant `t` is block `t / 86400000` of the epoch timeline, and
`setHours(23, 59, 59, 999)` yields the last millisecond of that block. -/

/-- Milliseconds per civil day. -/
def msPerDay : Int := 86400000

/-- First millisecond of the civil day containing `t` (midnight). -/
def floorDay (t : Int) : Int := msPerDay * (t / msPerDay)

/-- Embedding of `endOfDay.setHours(23, 59, 59, 999)` applied to a copy of
`t`: the last millisecond of the civil day of `t`. -/
def endOfDayMs (t : Int) : Int := floorDay t + 86399999

theorem floorDay_le (t : Int) : floorDay t ≤ t := by
  rw [floorDay]
  have h := Int.emod_nonneg t (show msPerDay ≠ 0 by rw [msPerDay]; norm_num)
  have h2 := Int.emod_add_ediv t msPerDay
  omega

theorem lt_floorDay_add (t : Int) : t < floorDay t + msPerDay := by
  rw [floorDay]
  have h := Int.emod_lt_of_pos t (show 0 < msPerDay by rw [msPerDay]; norm_num)
  have h2 := Int.emod_add_ediv t msPerDay
  omega

theorem floorDay_eq_of_mem (t u : Int) (h1 : floorDay t ≤ u) (h2 : u < floorDay t + msPerDay) :
    floorDay u = floorDay t := by
  have hpos : (0 : Int) < msPerDay := by rw [msPerDay]; norm_num
  rw [floorDay] at h1 h2
  rw [floorDay, floorDay]
  have hle : t / msPerDay ≤ u / msPerDay := by
    rw [Int.le_ediv_iff_mul_le hpos]
    have hcomm : t / msPerDay * msPerDay = msPerDay * (t / msPerDay) := by ring
    omega
  have hlt : u / msPerDay < t / msPerDay + 1 := by
    rw [Int.ediv_lt_iff_lt_mul hpos]
    have hexp : (t / msPerDay + 1) * msPerDay = msPerDay * (t / msPerDay) + msPerDay := by ring
    omega
  have heq : u / msPerDay = t / msPerDay := by omega
  rw [heq]

/-- The `while` loop of `splitDateRangeByDay`, with fuel bounding the number
of iterations (each iteration advances `currentStart` by at least one
millisecond, so the fuel chosen in `splitDateRangeByDay` always suffices). -/
def splitRangesGo (endTime : Int) : Nat → Int → List (Int × Int)
  | 0, _ => []
  | fuel + 1, currentStart =>
    if currentStart ≤ endTime then
      let endOfDay := endOfDayMs currentStart
      let currentEnd := if endTime < endOfDay then endTime else endOfDay
      (currentStart, currentEnd) ::
        (if endTime ≤ currentEnd then [] else splitRangesGo endTime fuel (currentEnd + 1))
    else []

/-- Lines 292-318 of `src/utils.ts`, `splitDateRangeByDay`. -/
def splitDateRangeByDay (start endTime : Int) : List (Int × Int) :=
  splitRangesGo endTime ((endTime - start).toNat + 1) start

theorem splitRangesGo_spec (endTime : Int) :
    ∀ fuel currentStart, currentStart ≤ endTime → (endTime - currentStart).toNat < fuel →
      splitRangesGo endTime fuel currentStart ≠ [] ∧
      ((splitRangesGo endTime fuel currentStart).headD (0, 0)).1 = currentStart ∧
      ((splitRangesGo endTime fuel currentStart).getLastD (0, 0)).2 = endTime ∧
      List.Chain' (fun a b => b.1 = a.2 + 1 ∧ a.1 < b.1)
        (splitRangesGo endTime fuel currentStart) ∧
      (∀ w ∈ splitRangesGo endTime fuel currentStart,
        w.1 ≤ w.2 ∧ floorDay w.1 = floorDay w.2 ∧ w.2 - w.1 < msPerDay) ∧
      (∀ t : Int, (currentStart ≤ t ∧ t ≤ endTime)
        ↔ ∃ w ∈ splitRangesGo endTime fuel currentStart, w.1 ≤ t ∧ t ≤ w.2) := by
  intro fuel
  induction fuel with
  | zero => omega
  | succ fuel ih =>
    intro cur hcur hfuel
    have hpos : (0 : Int) < msPerDay := by rw [msPerDay]; norm_num
    have hfle := floorDay_le cur
    have hflt := lt_floorDay_add cur
    have heod : cur ≤ endOfDayMs cur := by
      rw [endOfDayMs]
      rw [msPerDay] at hflt
      omega
    have hwinhead : cur ≤ endOfDayMs cur ∧ floorDay cur = floorDay (endOfDayMs cur)
        ∧ endOfDayMs cur - cur < msPerDay := by
      have hfd : floorDay (endOfDayMs cur) = floorDay cur := by
        apply floorDay_eq_of_mem
        · rw [endOfDayMs]
          omega
        · rw [endOfDayMs, msPerDay]
          omega
      refine ⟨heod, hfd.symm, ?_⟩
      rw [endOfDayMs, msPerDay]
      omega
    by_cases hbreak : endTime ≤ (if endTime < endOfDayMs cur then endTime else endOfDayMs cur)
    · have hcurEndeq : (if endTime < endOfDayMs cur then endTime else endOfDayMs cur)
          = endTime := by
        by_cases hc : endTime < endOfDayMs cur
        · rw [if_pos hc]
        · rw [if_neg hc] at hbreak ⊢
          omega
      have hinday : endTime ≤ endOfDayMs cur := by
        by_cases hc : endTime < endOfDayMs cur
        · omega
        · rw [if_neg hc] at hcurEndeq
          omega
      have hsplit : splitRangesGo endTime (fuel + 1) cur = [(cur, endTime)] := by
        rw [splitRangesGo, if_pos hcur]
        simp only [hcurEndeq]
        rw [if_pos (le_refl endTime)]
      rw [hsplit]
      refine ⟨by simp, by simp, by simp, by simp, ?_, ?_⟩
      · intro w hw
        rw [List.mem_singleton] at hw
        rw [hw]
        have hfd : floorDay endTime = floorDay cur := by
          apply floorDay_eq_of_mem
          · omega
          · rw [endOfDayMs] at hinday
            rw [msPerDay]
            omega
        refine ⟨hcur, hfd.symm, ?_⟩
        rw [endOfDayMs] at hinday
        rw [msPerDay]
        omega
      · intro t
        simp only [List.mem_singleton]
        constructor
        · intro ht
          exact ⟨(cur, endTime), rfl, ht.1, ht.2⟩
        · rintro ⟨w, rfl, hw1, hw2⟩
          exact ⟨hw1, hw2⟩
    · have hcurEndeq : (if endTime < endOfDayMs cur then endTime else endOfDayMs cur)
          = endOfDayMs cur := by
        by_cases hc : endTime < endOfDayMs cur
        · rw [if_pos hc] at hbreak
          omega
        · rw [if_neg hc]
      rw [hcurEndeq] at hbreak
      have hlt : endOfDayMs cur < endTime := by omega
      have hnext : endOfDayMs cur + 1 ≤ endTime := by omega
      have hfuel2 : (endTime - (endOfDayMs cur + 1)).toNat < fuel := by omega
      obtain ⟨ihne, ihhead, ihlast, ihchain, ihwin, ihcover⟩ :=
        ih (endOfDayMs cur + 1) hnext hfuel2
      have hsplit : splitRangesGo endTime (fuel + 1) cur
          = (cur, endOfDayMs cur) :: splitRangesGo endTime fuel (endOfDayMs cur + 1) := by
        rw [splitRangesGo, if_pos hcur]
        simp only [hcurEndeq]
        rw [if_neg (by omega)]
      rw [hsplit]
      refine ⟨by simp, by simp, ?_, ?_, ?_, ?_⟩
      · rw [List.getLastD_cons]
        cases hrec : splitRangesGo endTime fuel (endOfDayMs cur + 1) with
        | nil => exact absurd hrec ihne
        | cons x xs =>
          rw [hrec, List.getLastD_cons] at ihlast
          rw [List.getLastD_cons]
          exact ihlast
      · rw [List.chain'_cons']
        refine ⟨?_, ihchain⟩
        intro y hy
        cases hrec : splitRangesGo endTime fuel (endOfDayMs cur + 1) with
        | nil => rw [hrec] at hy; simp at hy
        | cons x xs =>
          rw [hrec] at hy ihhead
          simp only [List.head?_cons, Option.mem_some_iff] at hy
          rw [List.headD_cons] at ihhead
          subst hy
          exact ⟨ihhead, by omega⟩
      · intro w hw
        rcases List.mem_cons.mp hw with hwh | hwt
        · rw [hwh]
          exact hwinhead
        · exact ihwin w hwt
      · intro t
        constructor
        · intro ht
          by_cases hteod : t ≤ endOfDayMs cur
          · exact ⟨(cur, endOfDayMs cur), List.mem_cons_self _ _, ht.1, hteod⟩
          · obtain ⟨w, hwmem, hw1, hw2⟩ := (ihcover t).mp ⟨by omega, ht.2⟩
            exact ⟨w, List.mem_cons_of_mem _ hwmem, hw1, hw2⟩
        · rintro ⟨w, hwmem, hw1, hw2⟩
          rcases List.mem_cons.mp hwmem with hwh | hwt
          · rw [hwh] at hw1 hw2
            constructor
            · exact hw1
            · omega
          · have := (ihcover t).mpr ⟨w, hwt, hw1, hw2⟩
            constructor
            · omega
            · exact this.2

/-! ## The camera client (`src/client.ts`) -/

/-- Mutable session state of `ReolinkCameraClient`: the `loggingIn` guard
flag and the token lease (`none` models a client constructed without
`loginData`, whose `tokenLease` is `undefined`). -/
structure ClientSession where
  loggingIn : Bool
  tokenLease : Option Int
deriving DecidableEq

/-- Observable effect of one `login()` call. -/
inductive LoginEffect
  | skipped
  | earlyReturn
  | performed
deriving DecidableEq

/-- Lines 82-100 of `src/client.ts`, `login()`, run to completion (the
`await` of `getLoginParameters` is atomic in this sequential model):

* `loggingIn` already set — the whole body is skipped;
* otherwise `loggingIn` is set to `true`; if `tokenLease > Date.now()` the
  function returns early, leaving `loggingIn` set;
* otherwise the login round-trip completes, the lease is renewed and
  `loggingIn` is reset. -/
def loginStep (s : ClientSession) (now leaseSecs : Int) : ClientSession × LoginEffect :=
  if s.loggingIn then (s, LoginEffect.skipped)
  else if jsGtNum s.tokenLease now then
    ({ s with loggingIn := true }, LoginEffect.earlyReturn)
  else
    ({ loggingIn := false, tokenLease := some (now + 1000 * leaseSecs) },
      LoginEffect.performed)

/-- Lines 102-110 of `src/client.ts`, `requestWithLogin`: `await login()`,
then issue the authenticated request with the current parameters.  The
returned flag records whether the token lease is still valid at send
time. -/
def requestWithLoginStep (s : ClientSession) (now leaseSecs : Int) :
    ClientSession × LoginEffect × Bool :=
  let r := loginStep s now leaseSecs
  (r.1, r.2, jsGtNum r.1.tokenLease now)

/-! ### Civil-date arithmetic for `Date.prototype.getDate` (day of month)

Standard civil-from-days conversion, at the model's fixed zero UTC
offset. -/

/-- Day number (epoch-day block) of an epoch-millisecond instant. -/
def dayNumber (ms : Int) : Int := ms / msPerDay

/-- Civil `(year, month, day)` of an epoch-day number. -/
def civilFromDays (z0 : Int) : Int × Int × Int :=
  let z := z0 + 719468
  let era := z / 146097
  let doe := z - era * 146097
  let yoe := (doe - doe / 1460 + doe / 36524 - doe / 146096) / 365
  let y := yoe + era * 400
  let doy := doe - (365 * yoe + yoe / 4 - yoe / 100)
  let mp := (5 * doy + 2) / 153
  let d := doy - (153 * mp + 2) / 5 + 1
  let m := mp + (if mp < 10 then 3 else -9)
  (y + (if m ≤ 2 then 1 else 0), m, d)

/-- Embedding of `Date.prototype.getDate()` (day of month, model clock). -/
def jsGetDate (ms : Int) : Int := (civilFromDays (dayNumber ms)).2.2

/-- The clamped end instant built by lines 122-126 of `src/client.ts`:
`endTime = new Date(startTime)` followed by `setHours(23)`,
`setMinutes(59)`, `setSeconds(59)` — the millisecond component of
`startTime` is preserved. -/
def clampedSearchEnd (startMs : Int) : Int :=
  floorDay startMs + 23 * 3600000 + 59 * 60000 + 59 * 1000 + startMs % 1000

/-- Lines 115-126 of `src/client.ts`, `getVideoClips`: the effective search
end sent to the device — clamped when `endTime` is absent or when
`endTime.getDate() > startTime.getDate()`. -/
def searchEndMs (startMs : Int) (endMs : Option Int) : Int :=
  match endMs with
  | none => clampedSearchEnd startMs
  | some e => if jsGetDate e > jsGetDate startMs then clampedSearchEnd startMs else e

/-! ### `getVideoClipUrl` (lines 178-196 of `src/client.ts`) -/

/-- Result record of `getVideoClipUrl`. -/
structure ClipUrls where
  downloadPath : List Char
  playbackPath : List Char
  downloadPathWithHost : List Char
  playbackPathWithHost : List Char
  fileName : List Char
  fileNameWithExtension : List Char
deriving DecidableEq

/-- Lines 178-196 of `src/client.ts`, `getVideoClipUrl`.  The start-time
extraction (`findStartTimeFromFileName`, a regex over the filename) does
not affect the properties verified here and is passed as a parameter. -/
def getVideoClipUrl (startOf : List Char → List Char) (host token : List Char)
    (videoclipPath : List Char) : ClipUrls :=
  let fileNameWithExtension := (jsSplitChar '/' videoclipPath).getLastD []
  let fileName := (jsSplitChar '.' fileNameWithExtension).headD []
  let sanitizedPath := jsReplaceFirst (jstr " ") (jstr "%20") videoclipPath
  let timeStart := startOf fileNameWithExtension
  let downloadPath := jstr "api.cgi?cmd=Download&source=" ++ sanitizedPath
      ++ jstr "&output=" ++ fileNameWithExtension ++ jstr "&token=" ++ token
  let playbackPath := jstr "cgi-bin/api.cgi?cmd=Playback&source=" ++ sanitizedPath
      ++ jstr "&start=" ++ timeStart ++ jstr "&seek=0&token=" ++ token
  { downloadPath := downloadPath,
    playbackPath := playbackPath,
    downloadPathWithHost := jstr "http://" ++ host ++ jstr "/" ++ downloadPath,
    playbackPathWithHost := jstr "http://" ++ host ++ jstr "/" ++ playbackPath,
    fileName := fileName,
    fileNameWithExtension := fileNameWithExtension }

/-! ## The camera mixin (`src/cameraMixin.ts`): remote clip normalization -/

/-- Structured timestamp of a remote search hit (`VideoSearchTime`). -/
structure VideoSearchTime where
  day : Int
  hour : Int
  min : Int
  mon : Int
  sec : Int
  year : Int
deriving DecidableEq

/-- One remote search hit (`VideoSearchResult`). -/
structure VideoSearchResult where
  StartTime : VideoSearchTime
  EndTime : VideoSearchTime
  frameRate : Int
  height : Int
  name : List Char
  size : Int
  type : Int
  width : Int
deriving DecidableEq

/-- A normalized clip entry (the fields of the `VideoClip` objects the mixin
pushes). -/
structure VideoClip where
  id : List Char
  startTime : Int
  duration : Int
  videoId : List Char
  thumbnailId : List Char
  detectionClasses : List (List Char)
  event : List Char
  description : List Char
  thumbnailUrl : List Char
  videoclipUrl : List Char
deriving DecidableEq

/-- The clip object built for one remote search hit by lines 395-423 of
`src/cameraMixin.ts`.  `processDate` abstracts `this.processDate` (whose
value depends on the wall clock via `new Date()`); `urlsOf` abstracts the
webhook-URL builder. -/
def mkRemoteClip (processDate : VideoSearchTime → Int)
    (urlsOf : List Char → List Char × List Char)
    (el : VideoSearchResult) (parsed : ParsedClip) : VideoClip :=
  let startTime := processDate el.StartTime
  let entdTime := processDate el.EndTime
  { id := el.name,
    startTime := startTime,
    duration := entdTime - startTime,
    videoId := el.name,
    thumbnailId := el.name,
    detectionClasses := parsed.detectionClasses,
    event := jstr "motion",
    description := jstr "motion",
    thumbnailUrl := (urlsOf el.name).1,
    videoclipUrl := (urlsOf el.name).2 }

/-- The normalization loop of `getVideoClips` (remote branch), lines 395-427
of `src/cameraMixin.ts`: each hit is processed inside `try { ... } catch`;
when `parseVideoclipName` returns `undefined` the destructuring
`const { detectionClasses } = parseVideoclipName(...)` throws, the `catch`
logs, and the hit contributes no clip; otherwise the clip is pushed. -/
def getVideoClipsRemoteLoop (processDate : VideoSearchTime → Int)
    (urlsOf : List Char → List Char × List Char)
    (hits : List VideoSearchResult) : List VideoClip :=
  hits.filterMap fun el =>
    (parseVideoclipName el.name).map (mkRemoteClip processDate urlsOf el)

/-! ## The webhook HTTP handler (`src/main.ts`, `onRequest`) -/

/-- The parsed `params` envelope (`JSON.parse` result fields used by the
handler). -/
structure WebhookEnvelope where
  deviceId : List Char
  videoclipPath : List Char
deriving DecidableEq

/-- Outcome of `onRequest`: either a webhook branch completed and sent its
own response (`delivered`), or an explicit status was sent. -/
inductive HandlerResult
  | delivered
  | status (code : Nat)
deriving DecidableEq

/-- Lines 27-189 of `src/main.ts`, `onRequest`, at the level of control flow
that decides status codes:

* `parsedParams` is the result of `JSON.parse(params)` — `none` (a throw)
  reaches the outer `catch`, status 500;
* an unregistered `deviceId` makes `dev.console` throw a `TypeError` inside
  the outer `try` but before the inner one — also status 500;
* the webhook name is element 5 of `url.pathname.split('/')` (destructured,
  `undefined` when the path is shorter);
* a recognized webhook branch that throws is caught by the inner `catch`,
  status 400; one that completes sends its own response and returns;
* any other webhook name falls through to status 404.

`videoclipOk`/`thumbnailOk` abstract whether the respective branch's body
(file system, client, media conversion) completes without throwing. -/
def onRequestResult (pathname : List Char) (parsedParams : Option WebhookEnvelope)
    (registered : List (List Char)) (videoclipOk thumbnailOk : Bool) : HandlerResult :=
  match parsedParams with
  | none => HandlerResult.status 500
  | some env =>
    if env.deviceId ∈ registered then
      let webhook := (jsSplitChar '/' pathname).get? 5
      if webhook = some (jstr "videoclip") then
        if videoclipOk then HandlerResult.delivered else HandlerResult.status 400
      else if webhook = some (jstr "thumbnail") then
        if thumbnailOk then HandlerResult.delivered else HandlerResult.status 400
      else HandlerResult.status 404
    else HandlerResult.status 500

/-! ## Local-file delivery with byte ranges (`src/main.ts`, FTP branch) -/

/-- Response of the FTP-mode `videoclip` branch. -/
inductive FtpResponse
  | ranged (code : Nat) (contentRange : List Char) (acceptRanges : List Char)
      (contentLength : Int) (contentType : List Char) (body : List Nat)
  | whole (code : Nat) (contentLength : Nat) (contentType : List Char) (body : List Nat)
  | failed
deriving DecidableEq

/-- The `Content-Range` template literal of line 75 of `src/main.ts`. -/
def contentRangeHeader (start endB : Int) (fileSize : Nat) : List Char :=
  jstr "bytes " ++ intToDecStr start ++ jstr "-" ++ intToDecStr endB
    ++ jstr "/" ++ intToDecStr (fileSize : Int)

/-- Lines 46-105 of `src/main.ts`: the FTP-mode `videoclip` branch.  The
file is a byte list; `fs.createReadStream(path, { start, end })` is modelled
as the inclusive span read for in-range requests, and a `NaN` bound (it
throws in `createReadStream`) as the caught-error path (`failed`, which the
handler then answers with status 400). -/
def ftpVideoclipResponse (file : List Nat) (rangeHeader : Option (List Char)) : FtpResponse :=
  let fileSize := file.length
  match rangeHeader with
  | some range =>
    let stripped := jsReplaceFirst (jstr "bytes=") [] range
    let parts := jsSplitChar '-' stripped
    let startN := jsParseInt 10 (parts.headD [])
    let endN : JSNum :=
      if parts.getD 1 [] ≠ [] then jsParseInt 10 (parts.getD 1 [])
      else some ((fileSize : Int) - 1)
    match startN, endN with
    | some s, some e =>
      FtpResponse.ranged 206 (contentRangeHeader s e fileSize) (jstr "bytes")
        (e - s + 1) (jstr "video/mp4") ((file.drop s.toNat).take (e - s + 1).toNat)
    | _, _ => FtpResponse.failed
  | none => FtpResponse.whole 200 fileSize (jstr "video/mp4") file

/-! ## Remote-proxied delivery (`src/main.ts`, API branch) -/

/-- Upstream playback response (status code, headers, body). -/
structure UpstreamResponse where
  statusCode : Int
  hdrs : List (List Char × List Char)
  body : List Nat
deriving DecidableEq

/-- Outcome of the proxy branch: reject (the `reject(new Error(...))` path)
or relay the upstream headers and body through `sendStream` (note the
source passes only `headers`, not the upstream status code). -/
inductive ProxyOutcome
  | reject
  | relay (hdrs : List (List Char × List Char)) (body : List Nat)
deriving DecidableEq

/-- Property access `n[i]` on a JavaScript number: always `undefined`. -/
def jsIndexNumber (n : Int) (i : Nat) : Option Int := none

/-- Lines 116-141 of `src/main.ts`: the remote-proxy branch.  The guard is
`httpResponse.statusCode[0] === 400` — indexing the numeric status code, so
the comparison is `undefined === 400`. -/
def proxyVideoclip (u : UpstreamResponse) : ProxyOutcome :=
  if jsIndexNumber u.statusCode 0 = some 400 then ProxyOutcome.reject
  else ProxyOutcome.relay u.hdrs u.body

/-! ## String lemmas for the splitter, the range parser and the URL builder -/

theorem jsReplaceFirst_of_isPrefix (pat repl s : List Char) (hne : pat ≠ [])
    (hpre : pat.isPrefixOf s = true) :
    jsReplaceFirst pat repl s = repl ++ s.drop pat.length := by
  cases s with
  | nil =>
    rw [List.isPrefixOf_iff_prefix] at hpre
    exact absurd (List.prefix_nil.mp hpre) hne
  | cons c cs => rw [jsReplaceFirst, if_pos hpre]

theorem jsReplaceFirst_append (pat repl rest : List Char) (hne : pat ≠ []) :
    jsReplaceFirst pat repl (pat ++ rest) = repl ++ rest := by
  rw [jsReplaceFirst_of_isPrefix pat repl _ hne
    (by rw [List.isPrefixOf_iff_prefix]; exact List.prefix_append pat rest)]
  rw [List.drop_left]

theorem singleton_isPrefixOf (c : Char) (s : List Char) :
    [c].isPrefixOf s = true ↔ s.head? = some c := by
  cases s with
  | nil => simp [List.isPrefixOf]
  | cons d cs =>
    rw [List.isPrefixOf_iff_prefix, List.head?_cons, Option.some_inj]
    constructor
    · rintro ⟨t, ht⟩
      rw [List.singleton_append] at ht
      exact ((List.cons.injEq c t d cs).mp ht).1.symm
    · intro hdc
      exact ⟨cs, by rw [List.singleton_append, hdc]⟩

theorem jsReplaceFirst_not_mem (c : Char) (repl s : List Char) (h : c ∉ s) :
    jsReplaceFirst [c] repl s = s := by
  induction s with
  | nil => rfl
  | cons d cs ih =>
    rw [jsReplaceFirst]
    have hcd : ¬(d = c) := by
      intro heq
      exact h (by rw [heq]; exact List.mem_cons_self c cs)
    rw [if_neg (by
      intro hpre
      rw [singleton_isPrefixOf, List.head?_cons, Option.some_inj] at hpre
      exact hcd hpre)]
    rw [ih fun hmem => h (List.mem_cons_of_mem d hmem)]

theorem jsReplaceFirst_first_occurrence (c : Char) (repl p1 p2 : List Char) (h : c ∉ p1) :
    jsReplaceFirst [c] repl (p1 ++ c :: p2) = p1 ++ repl ++ p2 := by
  induction p1 with
  | nil =>
    rw [List.nil_append, List.nil_append]
    have : (c :: p2) = [c] ++ p2 := rfl
    rw [this, jsReplaceFirst_append [c] repl p2 (by simp)]
  | cons d ds ih =>
    rw [List.cons_append, jsReplaceFirst]
    have hcd : ¬(d = c) := by
      intro heq
      exact h (by rw [heq]; exact List.mem_cons_self c ds)
    rw [if_neg (by
      intro hpre
      rw [singleton_isPrefixOf, List.head?_cons, Option.some_inj] at hpre
      exact hcd hpre)]
    rw [ih fun hmem => h (List.mem_cons_of_mem d hmem)]
    simp

theorem jsSplitChar_not_mem (sep : Char) (s : List Char) (h : sep ∉ s) :
    jsSplitChar sep s = [s] := by
  induction s with
  | nil => rfl
  | cons c cs ih =>
    rw [jsSplitChar]
    have hc : ¬(c = sep) := by
      intro heq
      exact h (by rw [heq]; exact List.mem_cons_self sep cs)
    rw [if_neg hc, ih fun hmem => h (List.mem_cons_of_mem c hmem)]
    rfl

theorem jsSplitChar_append_sep (sep : Char) (ds rest : List Char) (h : sep ∉ ds) :
    jsSplitChar sep (ds ++ sep :: rest) = ds :: jsSplitChar sep rest := by
  induction ds with
  | nil =>
    rw [List.nil_append, jsSplitChar, if_pos rfl]
  | cons d dt ih =>
    rw [List.cons_append, jsSplitChar]
    have hd : ¬(d = sep) := by
      intro heq
      exact h (by rw [heq]; exact List.mem_cons_self sep dt)
    rw [if_neg hd, ih fun hmem => h (List.mem_cons_of_mem d hmem)]
    have hne : jsSplitChar sep rest ≠ [] := by
      cases rest with
      | nil => simp [jsSplitChar]
      | cons x xs =>
        rw [jsSplitChar]
        by_cases hx : x = sep
        · rw [if_pos hx]
          simp
        · rw [if_neg hx]
          simp
    rw [List.headD_cons, List.tail_cons]

/-! ## Claim theorems -/

/-- C1: for every pair of epoch-millisecond instants `start ≤ end`,
`splitDateRangeByDay` returns a non-empty list of windows whose first window
starts at `start`, whose last window ends at `end`, which is contiguous
(each window's start is the previous window's end plus one millisecond) and
ordered ascending, whose windows each lie within one calendar day (same
`floorDay`, span below one day), and whose union as integer-millisecond sets
is exactly `[start, end]`. -/
theorem C1_splitDateRangeByDay_correct (start endTime : Int) (h : start ≤ endTime) :
    splitDateRangeByDay start endTime ≠ [] ∧
    ((splitDateRangeByDay start endTime).headD (0, 0)).1 = start ∧
    ((splitDateRangeByDay start endTime).getLastD (0, 0)).2 = endTime ∧
    List.Chain' (fun a b => b.1 = a.2 + 1 ∧ a.1 < b.1) (splitDateRangeByDay start endTime) ∧
    (∀ w ∈ splitDateRangeByDay start endTime,
      w.1 ≤ w.2 ∧ floorDay w.1 = floorDay w.2 ∧ w.2 - w.1 < msPerDay) ∧
    (∀ t : Int, (start ≤ t ∧ t ≤ endTime)
      ↔ ∃ w ∈ splitDateRangeByDay start endTime, w.1 ≤ t ∧ t ≤ w.2) :=
  splitRangesGo_spec endTime ((endTime - start).toNat + 1) start h (by omega)

/-- Witness for C1 at `start = 0`, `end = 172800000` (a two-day span). -/
theorem C1_splitDateRangeByDay_correct_witness :
    (0 : Int) ≤ 172800000 ∧
    (splitDateRangeByDay 0 172800000 ≠ [] ∧
     ((splitDateRangeByDay 0 172800000).headD (0, 0)).1 = 0 ∧
     ((splitDateRangeByDay 0 172800000).getLastD (0, 0)).2 = 172800000 ∧
     List.Chain' (fun a b => b.1 = a.2 + 1 ∧ a.1 < b.1) (splitDateRangeByDay 0 172800000) ∧
     (∀ w ∈ splitDateRangeByDay 0 172800000,
       w.1 ≤ w.2 ∧ floorDay w.1 = floorDay w.2 ∧ w.2 - w.1 < msPerDay) ∧
     (∀ t : Int, ((0 : Int) ≤ t ∧ t ≤ 172800000)
       ↔ ∃ w ∈ splitDateRangeByDay 0 172800000, w.1 ≤ t ∧ t ≤ w.2)) :=
  ⟨by norm_num, C1_splitDateRangeByDay_correct 0 172800000 (by norm_num)⟩

/-- C10: `ReolinkCameraClient.getVideoClips` clamps the search end to
23:59:59 of the start's day exactly when the end's day-of-month exceeds the
start's day-of-month or the end is absent; consequently the window from
2024-01-31 12:00 to 2024-02-01 12:00 (day-of-month 1 ≤ 31) is sent
unclamped although it spans two calendar days. -/
theorem C10_searchEnd_clamp :
    (∀ s e : Int, jsGetDate e ≤ jsGetDate s → searchEndMs s (some e) = e) ∧
    (∀ s e : Int, jsGetDate s < jsGetDate e → searchEndMs s (some e) = clampedSearchEnd s) ∧
    (∀ s : Int, searchEndMs s none = clampedSearchEnd s) ∧
    searchEndMs 1706702400000 (some 1706788800000) = 1706788800000 ∧
    jsGetDate 1706702400000 = 31 ∧ jsGetDate 1706788800000 = 1 ∧
    dayNumber 1706788800000 = dayNumber 1706702400000 + 1 := by
  refine ⟨?_, ?_, ?_, by decide, by decide, by decide, by decide⟩
  · intro s e hle
    rw [searchEndMs, if_neg (not_lt.mpr hle)]
  · intro s e hlt
    rw [searchEndMs, if_pos hlt]
  · intro s
    rfl

/-- Witness for C10: the unclamped-window case at the concrete instants. -/
theorem C10_searchEnd_clamp_witness :
    jsGetDate 1706788800000 ≤ jsGetDate 1706702400000 ∧
    searchEndMs 1706702400000 (some 1706788800000) = 1706788800000 :=
  ⟨by decide, C10_searchEnd_clamp.1 1706702400000 1706788800000 (by decide)⟩

/-- The session state of a client constructed with still-valid `loginData`
(lease instant 100). -/
def c7Start : ClientSession := { loggingIn := false, tokenLease := some 100 }

/-- The state after one `login()` call at time 50 (lease still valid). -/
def c7Stuck : ClientSession := { loggingIn := true, tokenLease := some 100 }

/-- C7 is false of the code (code bug): `login()` sets `loggingIn` and then
returns early while the lease is valid, without resetting the flag.  From
then on every `login()` is a no-op, so after the lease expires (time 200)
`requestWithLogin` issues the authenticated request with no login performed
and an expired lease — the guard permanently blocks re-login. -/
theorem C7_login_guard_bug :
    (loginStep c7Start 50 60).1 = c7Stuck ∧
    (loginStep c7Start 50 60).2 = LoginEffect.earlyReturn ∧
    (∀ now leaseSecs : Int, loginStep c7Stuck now leaseSecs = (c7Stuck, LoginEffect.skipped)) ∧
    (requestWithLoginStep c7Stuck 200 60).2.1 = LoginEffect.skipped ∧
    (requestWithLoginStep c7Stuck 200 60).2.2 = false := by
  refine ⟨by decide, by decide, ?_, by decide, by decide⟩
  intro now leaseSecs
  rw [loginStep, if_pos (show c7Stuck.loggingIn = true from rfl)]

/-- C6 is false of the code (code bug): the guard compares
`httpResponse.statusCode[0]` — indexing a number, which is `undefined` — to
400, so the rejection branch is unreachable and every upstream response,
status 400 included, is relayed (and `sendStream` is passed only the
upstream headers, not its status). -/
theorem C6_proxy_relays_client_errors (u : UpstreamResponse) :
    proxyVideoclip u = ProxyOutcome.relay u.hdrs u.body ∧
    proxyVideoclip { statusCode := 400, hdrs := u.hdrs, body := u.body }
      = ProxyOutcome.relay u.hdrs u.body := by
  constructor
  · rw [proxyVideoclip, if_neg (by rw [jsIndexNumber]; simp)]
  · rw [proxyVideoclip, if_neg (by rw [jsIndexNumber]; simp)]

/-- C9 as stated is false: `videoclipPath.replace(' ', '%20')` replaces only
the first space, so a path with two spaces keeps a raw space in both URLs.
Concrete input `"a b c.mp4"`. -/
theorem C9_counterexample_second_space :
    (getVideoClipUrl (fun _ => []) (jstr "h") (jstr "TOK") (jstr "a b c.mp4")).downloadPath
      = jstr "api.cgi?cmd=Download&source=a%20b c.mp4&output=a b c.mp4&token=TOK" ∧
    ' ' ∈ (getVideoClipUrl (fun _ => []) (jstr "h") (jstr "TOK") (jstr "a b c.mp4")).downloadPath ∧
    ' ' ∈ (getVideoClipUrl (fun _ => []) (jstr "h") (jstr "TOK") (jstr "a b c.mp4")).playbackPath := by
  refine ⟨by decide, by decide, by decide⟩

/-- C9 (amended): both URLs carry the current session token as the final
`&token=` query parameter, and only the first space of the clip path is
`%20`-encoded — a path with at most one space is therefore fully encoded. -/
theorem C9_first_space_encoded_and_token (startOf : List Char → List Char)
    (host token path : List Char) :
    (∃ pre, (getVideoClipUrl startOf host token path).downloadPath
      = pre ++ jstr "&token=" ++ token) ∧
    (∃ pre, (getVideoClipUrl startOf host token path).playbackPath
      = pre ++ jstr "&token=" ++ token) ∧
    (∀ p1 p2, path = p1 ++ ' ' :: p2 → ' ' ∉ p1 →
      (getVideoClipUrl startOf host token path).downloadPath
        = jstr "api.cgi?cmd=Download&source=" ++ (p1 ++ jstr "%20" ++ p2)
          ++ jstr "&output=" ++ (jsSplitChar '/' path).getLastD []
          ++ jstr "&token=" ++ token) ∧
    (' ' ∉ path →
      (getVideoClipUrl startOf host token path).downloadPath
        = jstr "api.cgi?cmd=Download&source=" ++ path
          ++ jstr "&output=" ++ (jsSplitChar '/' path).getLastD []
          ++ jstr "&token=" ++ token) := by
  refine ⟨?_, ?_, ?_, ?_⟩
  · refine ⟨jstr "api.cgi?cmd=Download&source="
        ++ jsReplaceFirst (jstr " ") (jstr "%20") path
        ++ jstr "&output=" ++ (jsSplitChar '/' path).getLastD [], ?_⟩
    rw [getVideoClipUrl]
  · refine ⟨jstr "cgi-bin/api.cgi?cmd=Playback&source="
        ++ jsReplaceFirst (jstr " ") (jstr "%20") path
        ++ jstr "&start=" ++ startOf ((jsSplitChar '/' path).getLastD [])
        ++ jstr "&seek=0", ?_⟩
    rw [getVideoClipUrl]
    have hsplitlit : jstr "&seek=0&token=" = jstr "&seek=0" ++ jstr "&token=" := by decide
    simp [hsplitlit, List.append_assoc]
  · intro p1 p2 hpath hnosp
    rw [getVideoClipUrl]
    have hrepl : jsReplaceFirst (jstr " ") (jstr "%20") path = p1 ++ jstr "%20" ++ p2 := by
      rw [hpath]
      exact jsReplaceFirst_first_occurrence ' ' (jstr "%20") p1 p2 hnosp
    rw [hrepl]
  · intro hnosp
    rw [getVideoClipUrl]
    have hrepl : jsReplaceFirst (jstr " ") (jstr "%20") path = path :=
      jsReplaceFirst_not_mem ' ' (jstr "%20") path hnosp
    rw [hrepl]

/-- Witness for the amended C9 at the one-space path `"Rec/a b.mp4"`. -/
theorem C9_first_space_encoded_and_token_witness :
    jstr "Rec/a b.mp4" = jstr "Rec/a" ++ ' ' :: jstr "b.mp4" ∧ ' ' ∉ jstr "Rec/a" ∧
    (getVideoClipUrl (fun _ => []) (jstr "h") (jstr "TOK") (jstr "Rec/a b.mp4")).downloadPath
      = jstr "api.cgi?cmd=Download&source=" ++ (jstr "Rec/a" ++ jstr "%20" ++ jstr "b.mp4")
        ++ jstr "&output=" ++ (jsSplitChar '/' (jstr "Rec/a b.mp4")).getLastD []
        ++ jstr "&token=" ++ jstr "TOK" :=
  ⟨by decide, by decide,
    (C9_first_space_encoded_and_token (fun _ => []) (jstr "h") (jstr "TOK")
      (jstr "Rec/a b.mp4")).2.2.1 (jstr "Rec/a") (jstr "b.mp4") (by decide) (by decide)⟩

/-- C8 as stated is false: a well-formed request naming an unregistered
`deviceId` hits the `dev.console` access inside the outer `try` (before the
inner one), so the outer `catch` answers 500, not 400. -/
theorem C8_counterexample_unknown_device :
    onRequestResult (jstr "/a/b/c/d/videoclip")
      (some { deviceId := jstr "cam1", videoclipPath := jstr "x.mp4" }) [] true true
      = HandlerResult.status 500 ∧
    HandlerResult.status 500 ≠ HandlerResult.status 400 := by
  refine ⟨by decide, by decide⟩

/-- C8 (amended): an unparsable `params` envelope yields 500; an
unregistered `deviceId` also yields 500 (the handler answers, it does not
crash); with a registered device, a webhook segment other than `videoclip`
and `thumbnail` yields 404, and a recognized webhook whose branch throws
yields 400. -/
theorem C8_webhook_statuses :
    (∀ pathname registered vOk tOk,
      onRequestResult pathname none registered vOk tOk = HandlerResult.status 500) ∧
    (∀ pathname env registered vOk tOk, env.deviceId ∉ registered →
      onRequestResult pathname (some env) registered vOk tOk = HandlerResult.status 500) ∧
    (∀ pathname env registered vOk tOk, env.deviceId ∈ registered →
      (jsSplitChar '/' pathname).get? 5 ≠ some (jstr "videoclip") →
      (jsSplitChar '/' pathname).get? 5 ≠ some (jstr "thumbnail") →
      onRequestResult pathname (some env) registered vOk tOk = HandlerResult.status 404) ∧
    (∀ pathname env registered tOk, env.deviceId ∈ registered →
      (jsSplitChar '/' pathname).get? 5 = some (jstr "videoclip") →
      onRequestResult pathname (some env) registered false tOk
        = HandlerResult.status 400) := by
  refine ⟨?_, ?_, ?_, ?_⟩
  · intro pathname registered vOk tOk
    rfl
  · intro pathname env registered vOk tOk hnot
    rw [onRequestResult, if_neg hnot]
  · intro pathname env registered vOk tOk hmem hnv hnt
    rw [onRequestResult, if_pos hmem, if_neg hnv, if_neg hnt]
  · intro pathname env registered tOk hmem hv
    rw [onRequestResult, if_pos hmem, if_pos hv, if_neg (by simp)]

/-- Witness for the amended C8: unknown webhook yields 404 at a concrete
well-formed request. -/
theorem C8_webhook_statuses_witness :
    (jstr "cam1" ∈ [jstr "cam1"]) ∧
    (jsSplitChar '/' (jstr "/a/b/c/d/other")).get? 5 ≠ some (jstr "videoclip") ∧
    (jsSplitChar '/' (jstr "/a/b/c/d/other")).get? 5 ≠ some (jstr "thumbnail") ∧
    onRequestResult (jstr "/a/b/c/d/other")
      (some { deviceId := jstr "cam1", videoclipPath := jstr "x.mp4" }) [jstr "cam1"] true true
      = HandlerResult.status 404 :=
  ⟨by decide, by decide, by decide,
    C8_webhook_statuses.2.2.1 (jstr "/a/b/c/d/other")
      { deviceId := jstr "cam1", videoclipPath := jstr "x.mp4" } [jstr "cam1"] true true
      (by decide) (by decide) (by decide)⟩

/-- A remote hit whose filename has the wrong underscore-field count
(3 fields). -/
def c2BadHit : VideoSearchResult :=
  { StartTime := { day := 1, hour := 0, min := 0, mon := 1, sec := 0, year := 2024 },
    EndTime := { day := 1, hour := 0, min := 1, mon := 1, sec := 0, year := 2024 },
    frameRate := 0, height := 0, name := jstr "CameraA_00_123.mp4",
    size := 0, type := 0, width := 0 }

/-- C2 as stated is false: a hit whose filename cannot be structurally
decoded (here: 3 underscore fields) is dropped from the result of
`getVideoClips` — the destructuring of the `undefined` returned by
`parseVideoclipName` throws and the per-clip `catch` skips the push — so the
listing does not include the clip at all. -/
theorem C2_counterexample_clip_dropped :
    parseVideoclipName c2BadHit.name = none ∧
    getVideoClipsRemoteLoop (fun _ => 0) (fun _ => ([], [])) [c2BadHit] = [] := by
  refine ⟨by decide, by decide⟩

/-- C2 (amended): a decode failure never aborts the listing — the clips
whose filenames decode are all kept (the output has exactly one clip per
decodable hit, and each decodable hit contributes its clip), and a hit whose
filename merely has a non-hex flags word still decodes (to empty
`detectionClasses`) and is kept; but a hit whose filename fails structural
decode (wrong field count, unknown family/version) is itself dropped. -/
theorem C2_decode_failure_isolation :
    (∀ processDate urlsOf hits,
      (getVideoClipsRemoteLoop processDate urlsOf hits).length
        = (hits.filter fun el => (parseVideoclipName el.name).isSome).length) ∧
    (∀ processDate urlsOf hits el parsed, el ∈ hits →
      parseVideoclipName el.name = some parsed →
      mkRemoteClip processDate urlsOf el parsed
        ∈ getVideoClipsRemoteLoop processDate urlsOf hits) ∧
    (∀ processDate urlsOf pre bad post, parseVideoclipName bad.name = none →
      getVideoClipsRemoteLoop processDate urlsOf (pre ++ bad :: post)
        = getVideoClipsRemoteLoop processDate urlsOf pre
          ++ getVideoClipsRemoteLoop processDate urlsOf post) := by
  refine ⟨?_, ?_, ?_⟩
  · intro processDate urlsOf hits
    induction hits with
    | nil => rfl
    | cons el rest ih =>
      rw [getVideoClipsRemoteLoop, List.filterMap_cons, List.filter_cons]
      rw [getVideoClipsRemoteLoop] at ih
      cases hparse : parseVideoclipName el.name with
      | none => simpa using ih
      | some parsed => simpa using ih
  · intro processDate urlsOf hits el parsed hmem hparse
    rw [getVideoClipsRemoteLoop, List.mem_filterMap]
    refine ⟨el, hmem, ?_⟩
    rw [hparse]
    rfl
  · intro processDate urlsOf pre bad post hbad
    rw [getVideoClipsRemoteLoop, List.filterMap_append, List.filterMap_cons, hbad]
    rfl

/-- A remote hit with a well-formed single-channel filename whose flags word
is not hex: `parseInt` yields `NaN`, all flag values decode to 0, and the
clip is kept with empty detection classes. -/
def c2NanHit : VideoSearchResult :=
  { StartTime := { day := 15, hour := 14, min := 30, mon := 6, sec := 0, year := 2023 },
    EndTime := { day := 15, hour := 14, min := 30, mon := 6, sec := 30, year := 2023 },
    frameRate := 0, height := 0,
    name := jstr "RecM02_20230615_143000_143030_zzzzzzzz_10.mp4",
    size := 0, type := 0, width := 0 }

/-- Witness for the amended C2: on the listing `[bad, nan]` the bad hit is
dropped, the non-hex-flags hit survives with empty detection classes, and
the length equation holds. -/
theorem C2_decode_failure_isolation_witness :
    c2NanHit ∈ [c2BadHit, c2NanHit] ∧
    parseVideoclipName c2NanHit.name
      = some { size := some 16, detectionClasses := [] } ∧
    mkRemoteClip (fun _ => 0) (fun _ => ([], []))
        c2NanHit { size := some 16, detectionClasses := [] }
      ∈ getVideoClipsRemoteLoop (fun _ => 0) (fun _ => ([], [])) [c2BadHit, c2NanHit] ∧
    (getVideoClipsRemoteLoop (fun _ => 0) (fun _ => ([], [])) [c2BadHit, c2NanHit]).length
      = ([c2BadHit, c2NanHit].filter
          fun el => (parseVideoclipName el.name).isSome).length :=
  ⟨by decide, by decide,
    C2_decode_failure_isolation.2.1 (fun _ => 0) (fun _ => ([], []))
      [c2BadHit, c2NanHit] c2NanHit { size := some 16, detectionClasses := [] }
      (by decide) (by decide),
    C2_decode_failure_isolation.1 (fun _ => 0) (fun _ => ([], [])) [c2BadHit, c2NanHit]⟩

theorem mem_ite_singleton (P : Prop) [Decidable P] (x y : List Char) :
    (x ∈ if P then [y] else []) ↔ (x = y ∧ P) := by
  by_cases h : P
  · simp [h]
  · simp [h]

/-- C4: for every decoded flag assignment, the detection classes contain
`person`/`vehicle`/`face`/`animal` exactly when the corresponding AI flag
equals 1, contain `motion` exactly when `is_motion_record` or `ai_other`
equals 1, and contain nothing else; and the concrete 6-field version-2
filename whose flags word sets only the person-detect bit decodes to
exactly `["person"]` (with its size field). -/
theorem C4_detection_classes :
    (∀ fv : List (List Char × JSNum),
      ((jstr "person" ∈ detectionClassesOf fv)
        ↔ lookupFlag fv (jstr "ai_pd") = some (some 1)) ∧
      ((jstr "vehicle" ∈ detectionClassesOf fv)
        ↔ lookupFlag fv (jstr "ai_vd") = some (some 1)) ∧
      ((jstr "face" ∈ detectionClassesOf fv)
        ↔ lookupFlag fv (jstr "ai_fd") = some (some 1)) ∧
      ((jstr "animal" ∈ detectionClassesOf fv)
        ↔ lookupFlag fv (jstr "ai_ad") = some (some 1)) ∧
      ((jstr "motion" ∈ detectionClassesOf fv)
        ↔ (lookupFlag fv (jstr "is_motion_record") = some (some 1)
            ∨ lookupFlag fv (jstr "ai_other") = some (some 1))) ∧
      (∀ c ∈ detectionClassesOf fv,
        c ∈ [jstr "person", jstr "vehicle", jstr "face", jstr "animal", jstr "motion"])) ∧
    parseVideoclipName (jstr "RecM02_20230615_143000_143030_00004000_2F6E50.mp4")
      = some { size := some 3108432, detectionClasses := [jstr "person"] } := by
  refine ⟨?_, by decide⟩
  intro fv
  have hpv : ¬(jstr "person" = jstr "vehicle") := by decide
  have hpf : ¬(jstr "person" = jstr "face") := by decide
  have hpa : ¬(jstr "person" = jstr "animal") := by decide
  have hpm : ¬(jstr "person" = jstr "motion") := by decide
  have hvp : ¬(jstr "vehicle" = jstr "person") := by decide
  have hvf : ¬(jstr "vehicle" = jstr "face") := by decide
  have hva : ¬(jstr "vehicle" = jstr "animal") := by decide
  have hvm : ¬(jstr "vehicle" = jstr "motion") := by decide
  have hfp : ¬(jstr "face" = jstr "person") := by decide
  have hfv : ¬(jstr "face" = jstr "vehicle") := by decide
  have hfa : ¬(jstr "face" = jstr "animal") := by decide
  have hfm : ¬(jstr "face" = jstr "motion") := by decide
  have hap : ¬(jstr "animal" = jstr "person") := by decide
  have hav : ¬(jstr "animal" = jstr "vehicle") := by decide
  have haf : ¬(jstr "animal" = jstr "face") := by decide
  have ham : ¬(jstr "animal" = jstr "motion") := by decide
  have hmp : ¬(jstr "motion" = jstr "person") := by decide
  have hmv : ¬(jstr "motion" = jstr "vehicle") := by decide
  have hmf : ¬(jstr "motion" = jstr "face") := by decide
  have hma : ¬(jstr "motion" = jstr "animal") := by decide
  refine ⟨?_, ?_, ?_, ?_, ?_, ?_⟩
  · rw [detectionClassesOf]
    simp only [List.mem_append, mem_ite_singleton]
    simp [hpv, hpf, hpa, hpm]
  · rw [detectionClassesOf]
    simp only [List.mem_append, mem_ite_singleton]
    simp [hvp, hvf, hva, hvm]
  · rw [detectionClassesOf]
    simp only [List.mem_append, mem_ite_singleton]
    simp [hfp, hfv, hfa, hfm]
  · rw [detectionClassesOf]
    simp only [List.mem_append, mem_ite_singleton]
    simp [hap, hav, haf, ham]
  · rw [detectionClassesOf]
    simp only [List.mem_append, mem_ite_singleton]
    simp [hmp, hmv, hmf, hma]
  · intro c hc
    rw [detectionClassesOf] at hc
    simp only [List.mem_append, mem_ite_singleton] at hc
    rcases hc with (((h | h) | h) | h) | h <;> rw [h.1] <;> simp

/-- Witness for C4: the subset property applied at the concrete decoded
person-only flag word. -/
theorem C4_detection_classes_witness :
    (jstr "person" ∈ detectionClassesOf (decodeFlags (jstr "00004000") FLAGS_CAM_V2)) ∧
    jstr "person" ∈ [jstr "person", jstr "vehicle", jstr "face", jstr "animal", jstr "motion"] :=
  ⟨by decide,
    (C4_detection_classes.1 (decodeFlags (jstr "00004000") FLAGS_CAM_V2)).2.2.2.2.2
      (jstr "person") (by decide)⟩

/-- C5: the FTP-mode videoclip branch answers a `bytes=<start>-<end?>` range
request on an `N`-byte file with status 206, `Content-Range`
`bytes <start>-<end>/<N>`, `Accept-Ranges: bytes`, `Content-Type:
video/mp4`, `Content-Length = end - start + 1` (`end` defaulting to `N - 1`
when omitted), and exactly that byte span as body; without a range header it
answers 200 with the whole file and `Content-Length = N`. -/
theorem C5_ftp_range_response (file : List Nat) (ds es : List Char) (s e : Nat)
    (hdsne : ds ≠ []) (hdsdig : ∀ c ∈ ds, (digitVal 10 c).isSome)
    (hdsval : charsVal 10 ds = s)
    (hesne : es ≠ []) (hesdig : ∀ c ∈ es, (digitVal 10 c).isSome)
    (hesval : charsVal 10 es = e)
    (hse : s ≤ e) (hef : e < file.length) :
    ftpVideoclipResponse file (some (jstr "bytes=" ++ (ds ++ '-' :: es)))
      = FtpResponse.ranged 206 (contentRangeHeader (s : Int) (e : Int) file.length)
          (jstr "bytes") ((e : Int) - (s : Int) + 1) (jstr "video/mp4")
          ((file.drop s).take (e - s + 1)) ∧
    ((file.drop s).take (e - s + 1)).length = e - s + 1 ∧
    ftpVideoclipResponse file (some (jstr "bytes=" ++ (ds ++ ['-'])))
      = FtpResponse.ranged 206
          (contentRangeHeader (s : Int) ((file.length : Int) - 1) file.length)
          (jstr "bytes") ((file.length : Int) - 1 - (s : Int) + 1) (jstr "video/mp4")
          ((file.drop s).take (file.length - s)) ∧
    ftpVideoclipResponse file none = FtpResponse.whole 200 file.length (jstr "video/mp4") file := by
  have hbytesne : jstr "bytes=" ≠ ([] : List Char) := by decide
  have hndash_ds : '-' ∉ ds := by
    intro hmem
    have hbad := hdsdig '-' hmem
    rw [digitVal_dash] at hbad
    simp at hbad
  have hndash_es : '-' ∉ es := by
    intro hmem
    have hbad := hesdig '-' hmem
    rw [digitVal_dash] at hbad
    simp at hbad
  have hparse_ds : jsParseInt 10 ds = some ((s : Nat) : Int) := by
    rw [jsParseInt_all_digits 10 ds hdsne hdsdig, hdsval]
  have hparse_es : jsParseInt 10 es = some ((e : Nat) : Int) := by
    rw [jsParseInt_all_digits 10 es hesne hesdig, hesval]
  refine ⟨?_, ?_, ?_, rfl⟩
  · rw [ftpVideoclipResponse]
    rw [jsReplaceFirst_append (jstr "bytes=") [] (ds ++ '-' :: es) hbytesne, List.nil_append]
    rw [jsSplitChar_append_sep '-' ds es hndash_ds]
    rw [jsSplitChar_not_mem '-' es hndash_es]
    rw [List.headD_cons]
    have hget : (ds :: [es]).getD 1 [] = es := by rfl
    rw [hget, if_pos hesne, hparse_ds, hparse_es]
    have hsub : ((e : Int) - (s : Int) + 1).toNat = e - s + 1 := by omega
    have hsnat : ((s : Int)).toNat = s := Int.toNat_ofNat s
    show FtpResponse.ranged 206 (contentRangeHeader (s : Int) (e : Int) file.length)
        (jstr "bytes") ((e : Int) - (s : Int) + 1) (jstr "video/mp4")
        (List.take ((e : Int) - (s : Int) + 1).toNat (List.drop ((s : Int)).toNat file))
      = FtpResponse.ranged 206 (contentRangeHeader (s : Int) (e : Int) file.length)
        (jstr "bytes") ((e : Int) - (s : Int) + 1) (jstr "video/mp4")
        ((file.drop s).take (e - s + 1))
    rw [hsnat, hsub]
  · rw [List.length_take, List.length_drop]
    omega
  · rw [ftpVideoclipResponse]
    rw [jsReplaceFirst_append (jstr "bytes=") [] (ds ++ ['-']) hbytesne, List.nil_append]
    have hsing : (ds ++ ['-'] : List Char) = ds ++ '-' :: [] := rfl
    rw [hsing, jsSplitChar_append_sep '-' ds [] hndash_ds]
    have hnil : jsSplitChar '-' ([] : List Char) = [[]] := rfl
    rw [hnil, List.headD_cons]
    have hget : (ds :: [([] : List Char)]).getD 1 [] = [] := by rfl
    rw [hget, if_neg (by simp), hparse_ds]
    have hsnat : ((s : Int)).toNat = s := Int.toNat_ofNat s
    have hsub : ((file.length : Int) - 1 - (s : Int) + 1).toNat = file.length - s := by omega
    show FtpResponse.ranged 206
        (contentRangeHeader (s : Int) ((file.length : Int) - 1) file.length)
        (jstr "bytes") ((file.length : Int) - 1 - (s : Int) + 1) (jstr "video/mp4")
        (List.take ((file.length : Int) - 1 - (s : Int) + 1).toNat (List.drop ((s : Int)).toNat file))
      = FtpResponse.ranged 206
        (contentRangeHeader (s : Int) ((file.length : Int) - 1) file.length)
        (jstr "bytes") ((file.length : Int) - 1 - (s : Int) + 1) (jstr "video/mp4")
        ((file.drop s).take (file.length - s))
    rw [hsnat, hsub]

/-- Witness for C5: `bytes=100-199` against a 1000-byte file. -/
theorem C5_ftp_range_response_witness :
    (jstr "100" ≠ ([] : List Char)) ∧ (∀ c ∈ jstr "100", (digitVal 10 c).isSome) ∧
    charsVal 10 (jstr "100") = 100 ∧
    (jstr "199" ≠ ([] : List Char)) ∧ (∀ c ∈ jstr "199", (digitVal 10 c).isSome) ∧
    charsVal 10 (jstr "199") = 199 ∧
    (100 ≤ 199) ∧ (199 < (List.range 1000).length) ∧
    (ftpVideoclipResponse (List.range 1000)
        (some (jstr "bytes=" ++ (jstr "100" ++ '-' :: jstr "199")))
      = FtpResponse.ranged 206
          (contentRangeHeader ((100 : Nat) : Int) ((199 : Nat) : Int) (List.range 1000).length)
          (jstr "bytes") (((199 : Nat) : Int) - ((100 : Nat) : Int) + 1) (jstr "video/mp4")
          (((List.range 1000).drop 100).take (199 - 100 + 1)) ∧
     (((List.range 1000).drop 100).take (199 - 100 + 1)).length = 199 - 100 + 1 ∧
     ftpVideoclipResponse (List.range 1000) (some (jstr "bytes=" ++ (jstr "100" ++ ['-'])))
      = FtpResponse.ranged 206
          (contentRangeHeader ((100 : Nat) : Int) (((List.range 1000).length : Int) - 1)
            (List.range 1000).length)
          (jstr "bytes") (((List.range 1000).length : Int) - 1 - ((100 : Nat) : Int) + 1)
          (jstr "video/mp4")
          (((List.range 1000).drop 100).take ((List.range 1000).length - 100)) ∧
     ftpVideoclipResponse (List.range 1000) none
      = FtpResponse.whole 200 (List.range 1000).length (jstr "video/mp4") (List.range 1000)) :=
  ⟨by decide, by decide, by decide, by decide, by decide, by decide, by norm_num,
    by simp,
    C5_ftp_range_response (List.range 1000) (jstr "100") (jstr "199") 100 199
      (by decide) (by decide) (by decide) (by decide) (by decide) (by decide)
      (by norm_num) (by simp)⟩

/-- The hub-v0 flag assignment setting exactly `package_delivered`. -/
def hubPdAsn : List ((List Char × Nat × Nat) × Nat) :=
  FLAGS_HUB_V0.map fun e => (e, if e.1 = jstr "package_delivered" then 1 else 0)

/-- C3 as stated is false: the decoder's masks and shifts are 32-bit
JavaScript operations, so flags whose bit window reaches past bit 31 decode
wrongly.  Packing `package_delivered = 1` (bit offset 35, hub v0) by the
spec's construction yields the 10-digit word `0000000010`, whose decode
returns 0 for `package_delivered`, while the spec's double-reversal rule
yields 1 — the round-trip fails. -/
theorem C3_counterexample_high_bits :
    hubPdAsn.map (fun q => q.1) = FLAGS_HUB_V0 ∧
    encodeFlags 10 hubPdAsn = jstr "0000000010" ∧
    jsParseInt 16 (jstr "0000000010") = some 16 ∧
    specFlagValue 16 40 35 1 = 1 ∧
    lookupFlag (decodeFlags (jstr "0000000010") FLAGS_HUB_V0) (jstr "package_delivered")
      = some (some 0) := by
  refine ⟨by decide, by decide, by decide, by decide, by decide⟩

/-- C3 (amended): every supported flag table satisfies the structural
assumptions; for every valid flags word and every bit window lying below bit
31, the decoder computes exactly the spec's double-bit-reversal value; and
for every table and flag assignment, decoding the encoded word reproduces
the value of every flag whose window lies below bit 31. -/
theorem C3_flag_decode_roundtrip :
    (TableAssumptions FLAGS_CAM_V2 8 ∧ TableAssumptions FLAGS_HUB_V0 10 ∧
     TableAssumptions FLAGS_HUB_V1 10 ∧ TableAssumptions FLAGS_HUB_V2 10) ∧
    (∀ hexValue W pos size, jsParseInt 16 hexValue = some ((W : Nat) : Int) →
      W < 2 ^ (hexValue.length * 4) → 1 ≤ hexValue.length →
      pos + size ≤ 31 → 1 ≤ size → size ≤ 30 →
      decodeFlagValue (reversedHexInt hexValue) pos size
        = some ((specFlagValue W (hexValue.length * 4) pos size : Nat) : Int)) ∧
    (∀ len asn, 1 ≤ len →
      TableAssumptions (asn.map fun q => q.1) len →
      (∀ p ∈ asn, p.2 < 2 ^ p.1.2.2) →
      ∀ p ∈ asn, p.1.2.1 + p.1.2.2 ≤ 31 →
        lookupFlag (decodeFlags (encodeFlags len asn) (asn.map fun q => q.1)) p.1.1
          = some (some ((p.2 : Nat) : Int))) := by
  refine ⟨⟨by decide, by decide, by decide, by decide⟩, ?_, ?_⟩
  · intro hexValue W pos size hparse hW hlen hps hs1 hs30
    rw [reversedHexInt_eq hexValue W hparse hW hlen]
    rw [decodeFlagValue_eq (reverseBits (hexValue.length * 4) W) pos size hps hs1 hs30]
    rfl
  · intro len asn hlen hta hv
    exact decode_encodeFlags len hlen asn hta hv

/-- The cam-v2 assignment with `ai_pd = 1`, `framerate = 30`, all else 0. -/
def camWitnessAsn : List ((List Char × Nat × Nat) × Nat) :=
  FLAGS_CAM_V2.map fun e =>
    (e, if e.1 = jstr "ai_pd" then 1 else if e.1 = jstr "framerate" then 30 else 0)

/-- Witness for the amended C3: the round-trip at a concrete cam-v2
assignment recovers `ai_pd = 1`. -/
theorem C3_flag_decode_roundtrip_witness :
    (1 ≤ 8) ∧ TableAssumptions (camWitnessAsn.map fun q => q.1) 8 ∧
    (∀ p ∈ camWitnessAsn, p.2 < 2 ^ p.1.2.2) ∧
    (((jstr "ai_pd", 17, 1), 1) ∈ camWitnessAsn) ∧ (17 + 1 ≤ 31) ∧
    lookupFlag (decodeFlags (encodeFlags 8 camWitnessAsn)
        (camWitnessAsn.map fun q => q.1)) (jstr "ai_pd")
      = some (some (((1 : Nat) : Int))) :=
  ⟨by norm_num, by decide, by decide, by decide, by norm_num,
    C3_flag_decode_roundtrip.2.2 8 camWitnessAsn (by norm_num) (by decide) (by decide)
      ((jstr "ai_pd", 17, 1), 1) (by decide) (by norm_num)⟩
